import Mathlib

/-!
Verification development for the TornadoVM bytecode-log parser
(`src/parsers/bytecode_parser.py` together with the data model in
`src/models/bytecode.py`, `src/models/task_graph.py`,
`src/models/memory_object.py`).

Strings are modelled as `List Char`.  The Python regular expressions used by
the parser are modelled operationally: each pattern gets a dedicated matcher
that follows the backtracking search order of CPython's `re` engine
(leftmost starting position first; greedy pieces try the longest extent
first, lazy pieces the shortest).  Character classes are modelled at the
ASCII level (`\s`, `\w`, `\d`), which is the alphabet the logs use.
Python's `int()` is modelled both by a fallible conversion (`pyIntE`,
mirroring the fact that `int()` raises on malformed text) and by a total
default-0 variant (`pyIntD`) used by the pure parser; the two are proved to
agree on every text the parser actually converts.
-/

/-- Strings of the model: lists of characters. -/
abbrev Str : Type := List Char

/-- Python `\s` (ASCII range): space, tab, newline, carriage return,
vertical tab, form feed. -/
def isWs (c : Char) : Bool :=
  c == ' ' || c == '\t' || c == '\n' || c == '\r' || c == '\x0b' || c == '\x0c'

/-- Python `\w` (ASCII range): letters, digits, underscore. -/
def isWordChar (c : Char) : Bool := c.isAlphanum || c == '_'

/-- Character class `[\w\.]` used by the object-reference patterns. -/
def isWordDot (c : Char) : Bool := isWordChar c || c == '.'

/-- Character class `[0-9a-f]` (lowercase hexadecimal). -/
def isHexLower (c : Char) : Bool := c.isDigit || ('a' ≤ c && c ≤ 'f')

/-- Character class `[\w\s]` used by the DEALLOC status group. -/
def isWordOrWs (c : Char) : Bool := isWordChar c || isWs c

/-- Python `.` without DOTALL: any character except a newline. -/
def notNl (c : Char) : Bool := !(c == '\n')

/-- Python `str.strip()`: remove leading and trailing whitespace. -/
def pstrip (s : Str) : Str :=
  ((s.dropWhile isWs).reverse.dropWhile isWs).reverse

/-- Python `line.replace("bc:", "")`: delete every (non-overlapping,
leftmost-first) occurrence of the marker. -/
def removeBC : Str → Str
  | [] => []
  | 'b' :: 'c' :: ':' :: t => removeBC t
  | c :: t => c :: removeBC t

/-- Python `str.split(sep)` for a single-character separator: keeps empty
pieces, always returns at least one piece. -/
def splitOnC (sep : Char) : Str → List Str
  | [] => [[]]
  | c :: t =>
    if c == sep then [] :: splitOnC sep t
    else
      match splitOnC sep t with
      | [] => [[c]]
      | h :: r => (c :: h) :: r

/-- Python `str.split(None, 1)`: skip leading whitespace; first token is the
run of non-whitespace; the remainder (with the separating whitespace run
removed) is the second piece when non-empty. -/
def splitNone1 (s : Str) : List Str :=
  let s1 := s.dropWhile isWs
  if s1.isEmpty then []
  else
    let tok := s1.takeWhile (fun c => !(isWs c))
    let rest := (s1.dropWhile (fun c => !(isWs c))).dropWhile isWs
    if rest.isEmpty then [tok] else [tok, rest]

/-- Python `sep.join(pieces)`. -/
def joinSep (sep : Str) : List Str → Str
  | [] => []
  | [x] => x
  | x :: y :: r => x ++ sep ++ joinSep sep (y :: r)

/-- Length of the leading whitespace run (the maximal extent of `\s+`). -/
def wsRunLen (s : Str) : Nat := (s.takeWhile isWs).length

/-- Backtracking order for a greedy piece whose extent ranges over
`k, k-1, …, 1`: try the longest extent first. -/
def descend {α : Type} (f : Nat → Option α) : Nat → Option α
  | 0 => none
  | k + 1 => (f (k + 1)).orElse fun _ => descend f k

/-- Backtracking order for a lazy piece: try extents `m, m+1, …` (at most
`fuel` of them), shortest first. -/
def ascend {α : Type} (f : Nat → Option α) : Nat → Nat → Option α
  | _, 0 => none
  | m, fuel + 1 => (f m).orElse fun _ => ascend f (m + 1) fuel

/-- Leftmost-first search of `re.search`: try the pattern anchored at every
suffix of the subject, earliest position first (the empty suffix included). -/
def scanO {α : Type} (f : Str → Option α) : Str → Option α
  | [] => f []
  | s@(_ :: t) => (f s).orElse fun _ => scanO f t

/-- Python `re.split(r"(?=B)", s)` for a literal, non-empty `B`: split
immediately before every occurrence of `B` (`re.split` resumes after a
zero-width match one character further, so occurrences at consecutive
positions all split). -/
def splitKeep (B : Str) : Str → List Str
  | [] => [[]]
  | s@(c :: t) =>
    match splitKeep B t with
    | [] => [[]]
    | h :: r =>
      if B.isPrefixOf s then [] :: (c :: h) :: r
      else (c :: h) :: r

/-- Literal used by the section split pattern. -/
def interpHeaderLit : Str := "Interpreter instance running bytecodes".toList

/-- Literal head of the banner pattern. -/
def interpForLit : Str := "Interpreter instance running bytecodes for:".toList

/-- Literal middle of the banner pattern. -/
def runningThreadLit : Str := "Running in thread:".toList

/-- Tail `\s+(.+)` of the banner pattern: greedy whitespace (backtracking
from the longest run), then a non-empty run of non-newline characters. -/
def headerTail2 (w : Str) : Option Str :=
  descend
    (fun k =>
      let g2 := (w.drop k).takeWhile notNl
      if g2.isEmpty then none else some g2)
    (wsRunLen w)

/-- Piece `\s+Running in thread:` followed by `headerTail2`. -/
def headerAfterG1 (v : Str) : Option Str :=
  descend
    (fun k =>
      let r := v.drop k
      if runningThreadLit.isPrefixOf r then
        headerTail2 (r.drop runningThreadLit.length)
      else none)
    (wsRunLen v)

/-- Lazy group `(.+?)`: shortest non-empty run of non-newline characters
such that the rest of the banner pattern matches. -/
def headerG1 (u : Str) : Option (Str × Str) :=
  ascend
    (fun m => (headerAfterG1 (u.drop m)).map fun g2 => (u.take m, g2))
    1 (u.takeWhile notNl).length

/-- Banner pattern anchored at `s`:
`Interpreter instance running bytecodes for:\s+(.+?)\s+Running in thread:\s+(.+)`. -/
def headerAt (s : Str) : Option (Str × Str) :=
  if interpForLit.isPrefixOf s then
    let u := s.drop interpForLit.length
    descend (fun k => headerG1 (u.drop k)) (wsRunLen u)
  else none

/-- Model of the `re.search` on a section in `_parse_task_graph`, including
the `.strip()` applied to both captured groups. -/
def headerMatch (s : Str) : Option (Str × Str) :=
  (scanO headerAt s).map fun p => (pstrip p.1, pstrip p.2)

/-- Anchored `(\d+)`: a non-empty maximal digit run plus the rest. -/
def digitRun1 (s : Str) : Option (Str × Str) :=
  let d := s.takeWhile Char.isDigit
  if d.isEmpty then none else some (d, s.drop d.length)

/-- Anchored `([0-9a-f]+)`: a non-empty maximal lowercase-hex run. -/
def hexRun1 (s : Str) : Option (Str × Str) :=
  let d := s.takeWhile isHexLower
  if d.isEmpty then none else some (d, s.drop d.length)

/-- Anchored `([\w\.]+)`: a non-empty maximal word-or-dot run. -/
def wordDotRun1 (s : Str) : Option (Str × Str) :=
  let d := s.takeWhile isWordDot
  if d.isEmpty then none else some (d, s.drop d.length)

/-- Anchored `([\w\.]+@[0-9a-f]+)`: the object-reference group shared by the
ALLOC/TRANSFER/DEALLOC/ON_DEVICE patterns.  Both runs are forced maximal:
shrinking either would place a class character where the following literal
is required. -/
def objRef1 (s : Str) : Option (Str × Str) :=
  match wordDotRun1 s with
  | none => none
  | some (r, s1) =>
    match s1 with
    | '@' :: s2 =>
      match hexRun1 s2 with
      | none => none
      | some (h, s3) => some (r ++ '@' :: h, s3)
    | _ => none

/-- Anchored ` on\s+.*?, size=(\d+), batchSize=(\d+)` (the shared tail of the
ALLOC and TRANSFER patterns).  The lazy `.*?` ranges over the current line
only; the digit runs are forced maximal. -/
def sizeBatchTail (s : Str) : Option (Str × Str) :=
  if " on".toList.isPrefixOf s then
    let v := s.drop 3
    descend
      (fun k =>
        let w := v.drop k
        ascend
          (fun m =>
            let x := w.drop m
            if ", size=".toList.isPrefixOf x then
              match digitRun1 (x.drop 7) with
              | none => none
              | some (d1, y) =>
                if ", batchSize=".toList.isPrefixOf y then
                  match digitRun1 (y.drop 12) with
                  | none => none
                  | some (d2, _) => some (d1, d2)
                else none
            else none)
          0 ((w.takeWhile notNl).length + 1))
      (wsRunLen v)
  else none

/-- ALLOC pattern anchored at `s`:
`([\w\.]+@[0-9a-f]+) on\s+.*?, size=(\d+), batchSize=(\d+)`. -/
def allocAt (s : Str) : Option (Str × Str × Str) :=
  match objRef1 s with
  | none => none
  | some (ref, rest) => (sizeBatchTail rest).map fun p => (ref, p.1, p.2)

/-- Model of the ALLOC `re.search` in `_parse_operation`. -/
def allocMatch (d : Str) : Option (Str × Str × Str) := scanO allocAt d

/-- Anchored `\[(0x[0-9a-f]+|Object Hash Code=0x[0-9a-f]+)\]`: the bracketed
device-buffer tag of the TRANSFER pattern.  The two alternatives are
mutually exclusive on any input, so trying the first and then the second
matches the engine's alternation order. -/
def bracketTag1 (s : Str) : Option Str :=
  match s with
  | '[' :: t =>
    (if "0x".toList.isPrefixOf t then
      match hexRun1 (t.drop 2) with
      | some (_, ']' :: r2) => some r2
      | _ => none
     else none).orElse fun _ =>
      (if "Object Hash Code=0x".toList.isPrefixOf t then
        match hexRun1 (t.drop 19) with
        | some (_, ']' :: r2) => some r2
        | _ => none
       else none)
  | _ => none

/-- TRANSFER pattern anchored at `s`:
`\[(0x…|Object Hash Code=0x…)\] ([\w\.]+@[0-9a-f]+) on\s+.*?, size=(\d+), batchSize=(\d+)`. -/
def transferAt (s : Str) : Option (Str × Str × Str) :=
  match bracketTag1 s with
  | none => none
  | some r =>
    match r with
    | ' ' :: r2 =>
      match objRef1 r2 with
      | none => none
      | some (ref, rest) => (sizeBatchTail rest).map fun p => (ref, p.1, p.2)
    | _ => none

/-- Model of the TRANSFER `re.search` in `_parse_operation`. -/
def transferMatch (d : Str) : Option (Str × Str × Str) := scanO transferAt d

/-- Event pattern `\[event list=(-?\d+)\]` anchored at `s` (TRANSFER branch:
the index may be negative). -/
def eventAtSigned (s : Str) : Option Str :=
  if "[event list=".toList.isPrefixOf s then
    match s.drop 12 with
    | '-' :: t2 =>
      match digitRun1 t2 with
      | some (d, ']' :: _) => some ('-' :: d)
      | _ => none
    | t =>
      match digitRun1 t with
      | some (d, ']' :: _) => some d
      | _ => none
  else none

/-- Model of the signed event-list `re.search`. -/
def eventMatchSigned (d : Str) : Option Str := scanO eventAtSigned d

/-- Event pattern `\[event list=(\d+)\]` anchored at `s` (LAUNCH branch:
no sign allowed). -/
def eventAtUnsigned (s : Str) : Option Str :=
  if "[event list=".toList.isPrefixOf s then
    match digitRun1 (s.drop 12) with
    | some (d, ']' :: _) => some d
    | _ => none
  else none

/-- Model of the unsigned event-list `re.search`. -/
def eventMatchUnsigned (d : Str) : Option Str := scanO eventAtUnsigned d

/-- LAUNCH pattern anchored at `s`: `task ([\w\.]+) - ([\w\.]+) on`. -/
def launchAt (s : Str) : Option Str :=
  if "task ".toList.isPrefixOf s then
    match wordDotRun1 (s.drop 5) with
    | none => none
    | some (t1, r) =>
      if " - ".toList.isPrefixOf r then
        match wordDotRun1 (r.drop 3) with
        | none => none
        | some (_, r2) => if " on".toList.isPrefixOf r2 then some t1 else none
      else none
  else none

/-- Model of the LAUNCH `re.search`. -/
def launchMatch (d : Str) : Option Str := scanO launchAt d

/-- DEALLOC pattern anchored at `s`:
`\[(0x[0-9a-f]+)\] ([\w\.]+@[0-9a-f]+) \[Status:\s+([\w\s]+)\]`.
The status group is the maximal `[\w\s]` run after the (backtracking)
`\s+`; shrinking the run cannot expose the required `]`, shrinking the
whitespace lets the run start on a whitespace character. -/
def deallocAt (s : Str) : Option (Str × Str) :=
  match s with
  | '[' :: t =>
    if "0x".toList.isPrefixOf t then
      match hexRun1 (t.drop 2) with
      | some (_, ']' :: ' ' :: r2) =>
        match objRef1 r2 with
        | some (ref, rest) =>
          if " [Status:".toList.isPrefixOf rest then
            let v := rest.drop 9
            (descend
              (fun k =>
                let g3 := (v.drop k).takeWhile isWordOrWs
                if g3.isEmpty then none
                else
                  match (v.drop k).drop g3.length with
                  | ']' :: _ => some g3
                  | _ => none)
              (wsRunLen v)).map fun g3 => (ref, g3)
          else none
        | none => none
      | _ => none
    else none
  | _ => none

/-- Model of the DEALLOC `re.search`. -/
def deallocMatch (d : Str) : Option (Str × Str) := scanO deallocAt d

/-- ON_DEVICE / ON_DEVICE_BUFFER pattern anchored at `s`:
`\[(0x[0-9a-f]+)\] ([\w\.]+@[0-9a-f]+)`. -/
def onDeviceAt (s : Str) : Option Str :=
  match s with
  | '[' :: t =>
    if "0x".toList.isPrefixOf t then
      match hexRun1 (t.drop 2) with
      | some (_, ']' :: ' ' :: r2) => (objRef1 r2).map Prod.fst
      | _ => none
    else none
  | _ => none

/-- Model of the ON_DEVICE `re.search`. -/
def onDeviceMatch (d : Str) : Option Str := scanO onDeviceAt d

/-- BARRIER pattern anchored at `s`: `event-list (\d+)`. -/
def barrierAt (s : Str) : Option Str :=
  if "event-list ".toList.isPrefixOf s then (digitRun1 (s.drop 11)).map Prod.fst
  else none

/-- Model of the BARRIER `re.search`. -/
def barrierMatch (d : Str) : Option Str := scanO barrierAt d

/-- Pattern `@(\w+)` of `_extract_hash` anchored at `s`. -/
def hashAt : Str → Option Str
  | [] => none
  | c :: t =>
    if c = '@' then
      let w := t.takeWhile isWordChar
      if w.isEmpty then none else some w
    else none

/-- Model of `_extract_hash`: leftmost `@` followed by at least one word
character; the group is the maximal word run after it. -/
def extract_hash (ref : Str) : Option Str := scanO hashAt ref

/-- Pattern `[\w.]+@\w+` of the fallback `re.findall`, anchored at `s`;
returns the whole match and the remaining input. -/
def tryRefAt (s : Str) : Option (Str × Str) :=
  match wordDotRun1 s with
  | none => none
  | some (r, s1) =>
    match s1 with
    | '@' :: s2 =>
      let w := s2.takeWhile isWordChar
      if w.isEmpty then none else some (r ++ '@' :: w, s2.drop w.length)
    | _ => none

/-- Worker for the fallback `re.findall`: `skip` counts characters still to
be consumed by the previous (non-overlapping) match. -/
def findallAux : Str → Nat → List Str
  | [], _ => []
  | _ :: t, skip + 1 => findallAux t skip
  | s@(_ :: t), 0 =>
    match tryRefAt s with
    | some (r, _) => r :: findallAux t (r.length - 1)
    | none => findallAux t 0

/-- Model of `re.findall(r"[\w.]+@\w+", line)`: non-overlapping matches,
scanned left to right. -/
def findall_refs (s : Str) : List Str := findallAux s 0

/-- Components are scanned from the end of the dotted path for a recognized
shape (`…Array` suffix; `Vector`/`Matrix`/`Tensor` head; special names). -/
def componentPick : List Str → Option Str
  | [] => none
  | c :: rest =>
    if "Array".toList.isSuffixOf c then some c
    else if "Vector".toList.isPrefixOf c then some c
    else if "Matrix".toList.isPrefixOf c then some c
    else if "Tensor".toList.isPrefixOf c then some c
    else if c = "KernelContext".toList ∨ c = "TornadoCollectionInterface".toList
        ∨ c = "TornadoMatrixInterface".toList then some c
    else componentPick rest

/-- Model of `_extract_type`. -/
def extract_type (ref : Str) : Str :=
  if ref.contains ':' then ref.takeWhile (fun c => !(c == ':'))
  else
    let type_part := if ref.contains '@' then ref.takeWhile (fun c => !(c == '@')) else ref
    let components := splitOnC '.' type_part
    match componentPick components.reverse with
    | some c => c
    | none =>
      match components.getLast? with
      | some c => c
      | none => "Unknown".toList

/-- Decimal value of a digit string. -/
def natVal (ds : Str) : Nat := ds.foldl (fun a c => a * 10 + (c.toNat - 48)) 0

/-- Model of Python `int(text)` as it can fail: strip whitespace, optional
sign, then a non-empty digit string; anything else raises `ValueError`. -/
def pyIntE (s : Str) : Except Str Int :=
  let t := pstrip s
  let p : Int × Str :=
    match t with
    | [] => (1, [])
    | c :: r => if c = '-' then (-1, r) else if c = '+' then (1, r) else (1, c :: r)
  if !p.2.isEmpty && p.2.all Char.isDigit then
    Except.ok (p.1 * (natVal p.2 : Int))
  else Except.error "invalid literal for int".toList

/-- Total variant of `int(text)` used by the pure parser (0 on failure);
`pyIntE` is proved to succeed and agree wherever the parser converts. -/
def pyIntD (s : Str) : Int :=
  match pyIntE s with
  | Except.ok n => n
  | Except.error _ => 0

/-- Model of `models/bytecode.py` `BytecodeOperation` (the `offset` field is
carried with its default; the source never assigns it). -/
structure BytecodeOperation where
  operation : Str
  objects : List Str := []
  size : Int := 0
  batch_size : Int := 0
  task_name : Str := []
  event_list : Int := -1
  offset : Int := 0
  status : Str := []
deriving DecidableEq

/-- Model of `models/task_graph.py` `TaskGraph` (only the fields the parser
reads or writes; the timing/metrics fields are never touched by the core).
Python `set` fields are modelled as duplicate-free insertion lists, and the
`dependencies` dict as an insertion-ordered association list. -/
structure TaskGraph where
  graph_id : Str
  device : Str
  thread : Str
  operations : List BytecodeOperation := []
  dependencies : List (Str × List Str) := []
  objects_produced : List Str := []
  objects_consumed : List Str := []
  tasks : List Str := []
deriving DecidableEq

/-- Model of `models/memory_object.py` `MemoryObject`. -/
structure MemoryObject where
  object_id : Str
  object_type : Str
  size : Int := 0
  allocated_in_graph : Str := []
  current_status : Str := "Unknown".toList
  allocation_op_index : Int := -1
  deallocation_op_index : Int := -1
  used_in_graphs : List Str := []
  transfer_history : List (Str × Str × Int) := []
deriving DecidableEq

/-- One row of `self.bytecode_details`. -/
structure BytecodeDetail where
  taskGraph : Str
  operationName : Str
  detailsStr : Str
  globalIndex : Nat
  objectsJoined : Str
  taskName : Str
deriving DecidableEq

/-- Association list standing for a Python `dict` (insertion-ordered;
updating an existing key keeps its position, a new key is appended). -/
abbrev Dict (α : Type) : Type := List (Str × α)

/-- Lookup in a `Dict`. -/
def dlookup {α : Type} : Dict α → Str → Option α
  | [], _ => none
  | (k', v) :: t, k => if k' = k then some v else dlookup t k

/-- Insert or update in a `Dict` (Python `d[k] = v`). -/
def dinsert {α : Type} (k : Str) (v : α) : Dict α → Dict α
  | [] => [(k, v)]
  | (k', v') :: t => if k' = k then (k, v) :: t else (k', v') :: dinsert k v t

/-- Python `set.add` on an insertion list: append if absent. -/
def setAdd (x : Str) (s : List Str) : List Str := if x ∈ s then s else s ++ [x]

/-- The mutable state of one `BytecodeParser` instance. -/
structure ParserState where
  graphs : Dict TaskGraph := []
  memory_objects : Dict MemoryObject := []
  bytecode_details : List BytecodeDetail := []
deriving DecidableEq

/-- State of a freshly constructed `BytecodeParser`. -/
def fresh_state : ParserState := {}

/-- Dispatch of `_parse_operation` on the operation type (the part after
`parts = line.split(None, 1)`); `full` is the whole stripped line, which the
fallback branch scans for object references. -/
def decode_operation (t d full : Str) : BytecodeOperation :=
  if t = "ALLOC".toList then
    match allocMatch d with
    | some (ref, d1, d2) =>
      { operation := t, objects := [ref], size := pyIntD d1, batch_size := pyIntD d2 }
    | none => { operation := t }
  else if "TRANSFER".toList.isPrefixOf t then
    match transferMatch d with
    | some (ref, d1, d2) =>
      let ev : Int :=
        match eventMatchSigned d with
        | some g => pyIntD g
        | none => -1
      { operation := t, objects := [ref], size := pyIntD d1, batch_size := pyIntD d2,
        event_list := ev }
    | none => { operation := t }
  else if t = "LAUNCH".toList then
    match launchMatch d with
    | some nm =>
      let ev : Int :=
        match eventMatchUnsigned d with
        | some g => pyIntD g
        | none => -1
      { operation := t, task_name := nm, event_list := ev }
    | none => { operation := t }
  else if t = "DEALLOC".toList then
    match deallocMatch d with
    | some (ref, st) => { operation := t, objects := [ref], status := pstrip st }
    | none => { operation := t }
  else if t = "ON_DEVICE_BUFFER".toList ∨ t = "ON_DEVICE".toList then
    match onDeviceMatch d with
    | some ref => { operation := t, objects := [ref] }
    | none => { operation := t }
  else if t = "BARRIER".toList then
    match barrierMatch d with
    | some g => { operation := t, event_list := pyIntD g }
    | none => { operation := t }
  else
    { operation := t, objects := findall_refs full }

/-- Model of `_parse_operation` (total form, using `pyIntD`). -/
def parse_operation (line : Str) : Option BytecodeOperation :=
  let l := pstrip (removeBC line)
  match splitNone1 l with
  | [] => none
  | [t] => some (decode_operation (pstrip t) [] l)
  | t :: d :: _ => some (decode_operation (pstrip t) d l)

/-- Dispatch of `_parse_operation` with Python's fallible `int()`. -/
def decode_operationE (t d full : Str) : Except Str BytecodeOperation :=
  if t = "ALLOC".toList then
    match allocMatch d with
    | some (ref, d1, d2) => do
      let sz ← pyIntE d1
      let b ← pyIntE d2
      pure { operation := t, objects := [ref], size := sz, batch_size := b }
    | none => pure { operation := t }
  else if "TRANSFER".toList.isPrefixOf t then
    match transferMatch d with
    | some (ref, d1, d2) => do
      let sz ← pyIntE d1
      let b ← pyIntE d2
      let ev ←
        match eventMatchSigned d with
        | some g => pyIntE g
        | none => pure (-1 : Int)
      pure { operation := t, objects := [ref], size := sz, batch_size := b,
             event_list := ev }
    | none => pure { operation := t }
  else if t = "LAUNCH".toList then
    match launchMatch d with
    | some nm => do
      let ev ←
        match eventMatchUnsigned d with
        | some g => pyIntE g
        | none => pure (-1 : Int)
      pure { operation := t, task_name := nm, event_list := ev }
    | none => pure { operation := t }
  else if t = "DEALLOC".toList then
    match deallocMatch d with
    | some (ref, st) => pure { operation := t, objects := [ref], status := pstrip st }
    | none => pure { operation := t }
  else if t = "ON_DEVICE_BUFFER".toList ∨ t = "ON_DEVICE".toList then
    match onDeviceMatch d with
    | some ref => pure { operation := t, objects := [ref] }
    | none => pure { operation := t }
  else if t = "BARRIER".toList then
    match barrierMatch d with
    | some g => do
      let ev ← pyIntE g
      pure { operation := t, event_list := ev }
    | none => pure { operation := t }
  else
    pure { operation := t, objects := findall_refs full }

/-- Model of `_parse_operation` with Python's fallible `int()`. -/
def parse_operationE (line : Str) : Except Str (Option BytecodeOperation) :=
  let l := pstrip (removeBC line)
  match splitNone1 l with
  | [] => Except.ok none
  | [t] => (decode_operationE (pstrip t) [] l).map some
  | t :: d :: _ => (decode_operationE (pstrip t) d l).map some

/-- Per-object-reference body of the loop in `_process_operation`.  Python
mutates the registered `MemoryObject` in place, so the `used_in_graphs`
update persists in every branch. -/
def process_ref (op : BytecodeOperation) (opIndex : Int) (ref : Str) :
    TaskGraph × Dict MemoryObject → TaskGraph × Dict MemoryObject :=
  fun st =>
    let tg := st.1
    let mem := st.2
    match extract_hash ref with
    | none => (tg, mem)
    | some h =>
      let mem :=
        match dlookup mem h with
        | some _ => mem
        | none => dinsert h { object_id := h, object_type := extract_type ref } mem
      let m := (dlookup mem h).getD { object_id := h, object_type := extract_type ref }
      let m := { m with used_in_graphs := setAdd tg.graph_id m.used_in_graphs }
      if op.operation = "ALLOC".toList then
        ({ tg with objects_produced := setAdd h tg.objects_produced },
         dinsert h
           { m with allocated_in_graph := tg.graph_id, allocation_op_index := opIndex,
                    current_status := "Allocated".toList,
                    size := if op.size > 0 then op.size else m.size } mem)
      else if "TRANSFER".toList.isPrefixOf op.operation then
        ({ tg with objects_produced := setAdd h tg.objects_produced },
         dinsert h
           { m with
               transfer_history := m.transfer_history ++ [(op.operation, tg.graph_id, opIndex)],
               current_status := "Transferred".toList,
               size := if op.size > 0 then op.size else m.size } mem)
      else if op.operation = "DEALLOC".toList then
        (tg,
         dinsert h
           { m with deallocation_op_index := opIndex,
                    current_status := if op.status.isEmpty then "Freed".toList else op.status }
           mem)
      else if op.operation = "ON_DEVICE_BUFFER".toList then
        ({ tg with objects_consumed := setAdd h tg.objects_consumed },
         dinsert h { m with current_status := "On Device".toList } mem)
      else
        ({ tg with objects_consumed := setAdd h tg.objects_consumed },
         dinsert h m mem)

/-- Model of `_process_operation`. -/
def process_operation (op : BytecodeOperation) (tg : TaskGraph)
    (mem : Dict MemoryObject) : TaskGraph × Dict MemoryObject :=
  let opIndex : Int := tg.operations.length
  let tg := { tg with operations := tg.operations ++ [op] }
  let tg :=
    if op.task_name.isEmpty then tg
    else { tg with tasks := tg.tasks ++ [op.task_name] }
  op.objects.foldl (fun acc ref => process_ref op opIndex ref acc) (tg, mem)

/-- Accumulator of the line loop in `_parse_task_graph`. -/
structure LineAcc where
  tg : TaskGraph
  mem : Dict MemoryObject
  details : List BytecodeDetail
  gIdx : Nat
deriving DecidableEq

/-- One `bc:` line of `_parse_task_graph`'s loop (total form). -/
def process_line (gid : Str) (acc : LineAcc) (line : Str) : LineAcc :=
  if "bc:".toList.isPrefixOf (pstrip line) then
    match parse_operation line with
    | none => acc
    | some op =>
      let parts := splitNone1 (pstrip (removeBC line))
      let detailsStr : Str :=
        match parts with
        | _ :: dtl :: _ => dtl
        | _ => []
      let det : BytecodeDetail :=
        { taskGraph := gid, operationName := op.operation, detailsStr := detailsStr,
          globalIndex := acc.gIdx, objectsJoined := joinSep ", ".toList op.objects,
          taskName := op.task_name }
      let p := process_operation op acc.tg acc.mem
      { tg := p.1, mem := p.2, details := acc.details ++ [det], gIdx := acc.gIdx + 1 }
  else acc

/-- Model of `_parse_task_graph` (total form). -/
def parse_task_graph (sec : Str) (gid : Str) (st : ParserState) : ParserState :=
  match headerMatch sec with
  | none => st
  | some (device, thread) =>
    let tg0 : TaskGraph := { graph_id := gid, device := device, thread := thread }
    let g0 : Nat := (st.graphs.map (fun p => p.2.operations.length)).sum
    let acc := (splitOnC '\n' sec).foldl (process_line gid)
      { tg := tg0, mem := st.memory_objects, details := st.bytecode_details, gIdx := g0 }
    { graphs := dinsert gid acc.tg st.graphs, memory_objects := acc.mem,
      bytecode_details := acc.details }

/-- One `bc:` line with Python's fallible `int()`. -/
def process_lineE (gid : Str) (acc : LineAcc) (line : Str) : Except Str LineAcc :=
  if "bc:".toList.isPrefixOf (pstrip line) then do
    let r ← parse_operationE line
    match r with
    | none => pure acc
    | some op =>
      let parts := splitNone1 (pstrip (removeBC line))
      let detailsStr : Str :=
        match parts with
        | _ :: dtl :: _ => dtl
        | _ => []
      let det : BytecodeDetail :=
        { taskGraph := gid, operationName := op.operation, detailsStr := detailsStr,
          globalIndex := acc.gIdx, objectsJoined := joinSep ", ".toList op.objects,
          taskName := op.task_name }
      let p := process_operation op acc.tg acc.mem
      pure { tg := p.1, mem := p.2, details := acc.details ++ [det], gIdx := acc.gIdx + 1 }
  else pure acc

/-- Fold of `process_lineE` over the section lines. -/
def foldLinesE (gid : Str) : List Str → LineAcc → Except Str LineAcc
  | [], acc => pure acc
  | l :: rest, acc => do
    let acc' ← process_lineE gid acc l
    foldLinesE gid rest acc'

/-- Model of `_parse_task_graph` with Python's fallible `int()`. -/
def parse_task_graphE (sec : Str) (gid : Str) (st : ParserState) :
    Except Str ParserState :=
  match headerMatch sec with
  | none => pure st
  | some (device, thread) => do
    let tg0 : TaskGraph := { graph_id := gid, device := device, thread := thread }
    let g0 : Nat := (st.graphs.map (fun p => p.2.operations.length)).sum
    let acc ← foldLinesE gid (splitOnC '\n' sec)
      { tg := tg0, mem := st.memory_objects, details := st.bytecode_details, gIdx := g0 }
    pure { graphs := dinsert gid acc.tg st.graphs, memory_objects := acc.mem,
           bytecode_details := acc.details }

/-- Reversed-digit decomposition with explicit fuel (so that the kernel can
evaluate it); `fuel > n` always suffices since `n / 10` shrinks. -/
def toDigitsRevAux : Nat → Nat → List Nat
  | _, 0 => []
  | n, fuel + 1 => if n < 10 then [n] else n % 10 :: toDigitsRevAux (n / 10) fuel

/-- Reversed-digit decomposition of a natural number, least significant
digit first. -/
def toDigitsRev (n : Nat) : List Nat := toDigitsRevAux n (n + 1)

/-- Decimal digit to character. -/
def digitChar10 : Nat → Char
  | 0 => '0'
  | 1 => '1'
  | 2 => '2'
  | 3 => '3'
  | 4 => '4'
  | 5 => '5'
  | 6 => '6'
  | 7 => '7'
  | 8 => '8'
  | _ => '9'

/-- Decimal rendering of a natural number (Python `str(n)` / f-string). -/
def natToChars (n : Nat) : Str := ((toDigitsRev n).map digitChar10).reverse

/-- Synthetic graph identifier `f"TaskGraph_{n}"`. -/
def graph_key (n : Nat) : Str := "TaskGraph_".toList ++ natToChars n

/-- Section loop of `parse_log` (total form): skip blank sections without
consuming an identifier; non-blank sections consume one identifier whether
or not their banner resolves. -/
def parse_sections : List Str → Nat → ParserState → ParserState
  | [], _, st => st
  | s :: rest, gid, st =>
    if (pstrip s).isEmpty then parse_sections rest gid st
    else parse_sections rest (gid + 1) (parse_task_graph s (graph_key gid) st)

/-- Section loop of `parse_log` with Python's fallible `int()`. -/
def parse_sectionsE : List Str → Nat → ParserState → Except Str ParserState
  | [], _, st => pure st
  | s :: rest, gid, st =>
    if (pstrip s).isEmpty then parse_sectionsE rest gid st
    else do
      let st' ← parse_task_graphE s (graph_key gid) st
      parse_sectionsE rest (gid + 1) st'

/-- Two-step edge insertion of `_build_dependencies`: ensure the key exists,
then append the hash if it is not already recorded for that source graph. -/
def add_edge (deps : Dict (List Str)) (pid h : Str) : Dict (List Str) :=
  match dlookup deps pid with
  | none => deps ++ [(pid, [h])]
  | some l => if h ∈ l then deps else dinsert pid (l ++ [h]) deps

/-- Dependencies of one graph against the graphs discovered before it. -/
def deps_for (prevs : List TaskGraph) (g : TaskGraph) : Dict (List Str) :=
  g.objects_consumed.foldl
    (fun deps h =>
      prevs.foldl
        (fun deps p => if h ∈ p.objects_produced then add_edge deps p.graph_id h else deps)
        deps)
    g.dependencies

/-- Worker of `_build_dependencies`, carrying the already-visited graphs. -/
def build_deps_aux (prevs : List TaskGraph) : List TaskGraph → List TaskGraph
  | [] => []
  | g :: rest =>
    { g with dependencies := deps_for prevs g } :: build_deps_aux (prevs ++ [g]) rest

/-- Model of `_build_dependencies` over the graph list in discovery order. -/
def build_dependencies (gs : List TaskGraph) : List TaskGraph := build_deps_aux [] gs

/-- Rebuild the graphs dict after the dependency pass (the Python code
mutates the dict's values in place, keeping keys and order). -/
def rebuild_graphs (g : Dict TaskGraph) : Dict TaskGraph :=
  (g.map Prod.fst).zip (build_dependencies (g.map Prod.snd))

/-- Model of `parse_log` run on a parser in state `st` (total form). -/
def parse_log_from (st : ParserState) (log : Str) : ParserState :=
  let st' := parse_sections (splitKeep interpHeaderLit log) 0 st
  { st' with graphs := rebuild_graphs st'.graphs }

/-- Model of `BytecodeParser().parse_log(log)` on a fresh parser. -/
def parse_log (log : Str) : ParserState := parse_log_from fresh_state log

/-- Model of `parse_log` with Python's fallible `int()`. -/
def parse_logE (log : Str) : Except Str ParserState := do
  let st' ← parse_sectionsE (splitKeep interpHeaderLit log) 0 fresh_state
  pure { st' with graphs := rebuild_graphs st'.graphs }

/-- Graph identifiers the parser will assign: one per non-blank section in
encounter order, skipped (but still counted) when the banner does not
resolve.  This mirrors the `graph_id` counter of `parse_log`. -/
def expected_keys : List Str → Nat → List Str
  | [], _ => []
  | s :: rest, gid =>
    if (pstrip s).isEmpty then expected_keys rest gid
    else if (headerMatch s).isSome then graph_key gid :: expected_keys rest (gid + 1)
    else expected_keys rest (gid + 1)

/-- Number of banner occurrences whose device and thread both resolve: each
occurrence of the split literal opens one tail section, and resolvability
is the banner pattern matching within that section. -/
def count_resolvable_banners (log : Str) : Nat :=
  ((splitKeep interpHeaderLit log).drop 1).countP fun s => (headerMatch s).isSome

/-- Membership of hash `h` on the dependency edge from `pid`. -/
def edge_mem (deps : Dict (List Str)) (pid h : Str) : Prop :=
  ∃ l, dlookup deps pid = some l ∧ h ∈ l

/-- Operation kinds whose object references are classified as produced. -/
def producedKind (op : BytecodeOperation) : Bool :=
  op.operation == "ALLOC".toList || "TRANSFER".toList.isPrefixOf op.operation

/-- Operation kinds whose object references are classified as consumed
(`ON_DEVICE_BUFFER` and every kind other than ALLOC, TRANSFER_*, DEALLOC). -/
def consumedKind (op : BytecodeOperation) : Bool :=
  !(op.operation == "ALLOC".toList)
    && !("TRANSFER".toList.isPrefixOf op.operation)
    && !(op.operation == "DEALLOC".toList)

/-- Identity hashes extractable from a list of object references. -/
def ref_hashes (objs : List Str) : List Str := objs.filterMap extract_hash

/-- Size recorded for `h` in the registry (0 when unregistered, matching a
fresh `MemoryObject`'s default). -/
def mem_size_at (mem : Dict MemoryObject) (h : Str) : Int :=
  match dlookup mem h with
  | some m => m.size
  | none => 0

/-- Transfer history recorded for `h` in the registry (empty when
unregistered). -/
def mem_hist_at (mem : Dict MemoryObject) (h : Str) : List (Str × Str × Int) :=
  match dlookup mem h with
  | some m => m.transfer_history
  | none => []

/-- Default graph used only as the `getD` fallback when indexing. -/
def emptyTG : TaskGraph := { graph_id := [], device := [], thread := [] }

/-- Claim C3's scenario log: one banner, one ALLOC line. -/
def log_c3 : Str :=
  ("Interpreter instance running bytecodes for: CPU0 Running in thread: T1\n"
    ++ "bc: ALLOC foo.IntArray@aa11 on CPU0, size=1024, batchSize=4").toList

/-- Claim C5's scenario log: one banner, one DEALLOC line with a
`Persisted object` status. -/
def log_c5 : Str :=
  ("Interpreter instance running bytecodes for: CPU0 Running in thread: T1\n"
    ++ "bc: DEALLOC [0x7f] foo.IntArray@aa11 [Status: Persisted object]").toList

/-- Non-blank preamble followed by one resolvable banner: the unresolvable
first section still consumes identifier 0. -/
def log_c9 : Str :=
  ("junk\n"
    ++ "Interpreter instance running bytecodes for: CPU0 Running in thread: T1").toList

/-- Log whose single graph both produces (ALLOC) and consumes (ON_DEVICE)
the same identity hash. -/
def log_c10 : Str :=
  ("Interpreter instance running bytecodes for: CPU0 Running in thread: T1\n"
    ++ "bc: ALLOC foo.IntArray@aa11 on CPU0, size=8, batchSize=0\n"
    ++ "bc: ON_DEVICE [0x1] foo.IntArray@aa11").toList

/-- Two-graph log used to witness the dependency-resolution claim. -/
def log_dep : Str :=
  ("Interpreter instance running bytecodes for: CPU0 Running in thread: T1\n"
    ++ "bc: ALLOC foo.IntArray@aa11 on CPU0, size=8, batchSize=0\n"
    ++ "Interpreter instance running bytecodes for: GPU Running in thread: T2\n"
    ++ "bc: ON_DEVICE_BUFFER [0x1] foo.IntArray@aa11").toList

/-- Concrete TRANSFER operation used by witnesses. -/
def op_transfer_w : BytecodeOperation :=
  { operation := "TRANSFER_HOST_TO_DEVICE".toList,
    objects := ["bar.FloatArray@bb22".toList], size := 64, batch_size := 0 }

/-- Concrete DEALLOC operation used by witnesses. -/
def op_dealloc_w : BytecodeOperation :=
  { operation := "DEALLOC".toList, objects := ["foo.IntArray@aa11".toList],
    status := "Persisted object".toList }

/-- Concrete graph used by witnesses. -/
def tg_w : TaskGraph :=
  { graph_id := "TaskGraph_0".toList, device := "CPU0".toList, thread := "T1".toList }

/-- Decimal value of a least-significant-first digit list (left inverse of
`toDigitsRev`, used to prove identifier injectivity). -/
def evalRev : List Nat → Nat
  | [] => 0
  | d :: r => d + 10 * evalRev r

/-- Numeric value of a decimal digit character. -/
def charDigitVal (c : Char) : Nat := c.toNat - 48

theorem tv_dlookup_dinsert_self {α : Type} (k : Str) (v : α) (d : Dict α) :
    dlookup (dinsert k v d) k = some v := by
  induction d with
  | nil => simp [dinsert, dlookup]
  | cons p t ih =>
    by_cases hk : p.1 = k
    · simp [dinsert, hk, dlookup]
    · simp [dinsert, hk, dlookup, ih]

theorem tv_dlookup_dinsert_ne {α : Type} (k v k') (d : Dict α) (h : k ≠ k') :
    dlookup (dinsert k v d) k' = dlookup d k' := by
  induction d with
  | nil => simp [dinsert, dlookup, h]
  | cons p t ih =>
    by_cases hk : p.1 = k
    · subst hk
      simp [dinsert, dlookup, h, if_neg h]
    · simp only [dinsert, if_neg hk]
      by_cases hk' : p.1 = k'
      · simp [dlookup, hk']
      · simp [dlookup, hk', ih]

theorem tv_dinsert_map_fst_mem {α : Type} (k : Str) (v : α) (d : Dict α)
    (h : k ∈ d.map Prod.fst) : (dinsert k v d).map Prod.fst = d.map Prod.fst := by
  induction d with
  | nil => simp at h
  | cons p t ih =>
    by_cases hk : p.1 = k
    · simp [dinsert, hk]
    · simp only [List.map_cons, List.mem_cons] at h
      rcases h with h | h
    
      · exact absurd h.symm hk
      · simp [dinsert, hk, ih h]

theorem tv_dinsert_map_fst_not_mem {α : Type} (k : Str) (v : α) (d : Dict α)
    (h : k ∉ d.map Prod.fst) : (dinsert k v d).map Prod.fst = d.map Prod.fst ++ [k] := by
  induction d with
  | nil => simp [dinsert]
  | cons p t ih =>
    simp only [List.map_cons, List.mem_cons, not_or] at h
    have hne : ¬ p.1 = k := fun hh => h.1 hh.symm
    simp [dinsert, hne, ih h.2]

theorem tv_dlookup_append_of_some {α : Type} (d e : Dict α) (k : Str) (w : α)
    (h : dlookup d k = some w) : dlookup (d ++ e) k = some w := by
  induction d with
  | nil => simp [dlookup] at h
  | cons p t ih =>
    by_cases hk : p.1 = k
    · simpa [dlookup, hk] using h
    · simp [dlookup, hk] at h ⊢
      exact ih h

theorem tv_dlookup_append_of_none {α : Type} (d e : Dict α) (k : Str)
    (h : dlookup d k = none) : dlookup (d ++ e) k = dlookup e k := by
  induction d with
  | nil => simp
  | cons p t ih =>
    by_cases hk : p.1 = k
    · simp [dlookup, hk] at h
    · simp [dlookup, hk] at h ⊢
      exact ih h

theorem tv_mem_setAdd (x y : Str) (s : List Str) :
    y ∈ setAdd x s ↔ y = x ∨ y ∈ s := by
  by_cases hx : x ∈ s
  · simp only [setAdd, if_pos hx]
    constructor
    · exact Or.inr
    · rintro (rfl | h)
      · exact hx
      · exact h
  · simp [setAdd, if_neg hx, or_comm]

theorem tv_setAdd_sub (x : Str) (s : List Str) : s ⊆ setAdd x s := by
  intro y hy
  exact (tv_mem_setAdd x y s).mpr (Or.inr hy)

theorem tv_scanO_some {α : Type} (f : Str → Option α) :
    ∀ s a, scanO f s = some a → ∃ t, t <:+ s ∧ f t = some a := by
  intro s
  induction s with
  | nil =>
    intro a h
    exact ⟨[], List.suffix_refl [], h⟩
  | cons c t ih =>
    intro a h
    cases hf : f (c :: t) with
    | some b =>
      refine ⟨c :: t, List.suffix_refl _, ?_⟩
      simp only [scanO, hf, Option.orElse] at h
      rw [hf, h]
    | none =>
      simp only [scanO, hf, Option.orElse] at h
      obtain ⟨u, hu, hfu⟩ := ih a h
      exact ⟨u, hu.trans (List.suffix_cons c t), hfu⟩

theorem tv_descend_some {α : Type} (f : Nat → Option α) :
    ∀ k a, descend f k = some a → ∃ i, 1 ≤ i ∧ i ≤ k ∧ f i = some a := by
  intro k
  induction k with
  | zero => intro a h; simp [descend] at h
  | succ k ih =>
    intro a h
    cases hf : f (k + 1) with
    | some b =>
      simp only [descend, hf, Option.orElse] at h
      exact ⟨k + 1, by omega, by omega, by rw [hf, h]⟩
    | none =>
      simp only [descend, hf, Option.orElse] at h
      obtain ⟨i, h1, h2, h3⟩ := ih a h
      exact ⟨i, h1, by omega, h3⟩

theorem tv_ascend_some {α : Type} (f : Nat → Option α) :
    ∀ fuel m a, ascend f m fuel = some a → ∃ i, m ≤ i ∧ f i = some a := by
  intro fuel
  induction fuel with
  | zero => intro m a h; simp [ascend] at h
  | succ fuel ih =>
    intro m a h
    cases hf : f m with
    | some b =>
      simp only [ascend, hf, Option.orElse] at h
      exact ⟨m, le_refl m, by rw [hf, h]⟩
    | none =>
      simp only [ascend, hf, Option.orElse] at h
      obtain ⟨i, h1, h2⟩ := ih (m + 1) a h
      exact ⟨i, by omega, h2⟩

theorem tv_all_ws_of_pstrip_nil (s : Str) (h : pstrip s = []) :
    ∀ c ∈ s, isWs c = true := by
  unfold pstrip at h
  rw [List.reverse_eq_nil_iff, List.dropWhile_eq_nil_iff] at h
  intro c hc
  rcases (List.mem_append.mp ((@List.takeWhile_append_dropWhile _ isWs s) ▸ hc))
    with hn | hn
  · exact List.mem_takeWhile_imp hn
  · exact h c (List.mem_reverse.mpr hn)

theorem tv_splitKeep_head (B : Str) :
    ∀ s, ∃ h r, splitKeep B s = h :: r
      ∧ (B.isPrefixOf s = true → h = [])
      ∧ (B.isPrefixOf s = false →
          (∃ u, h ++ u = s) ∧ ∀ p, B.isPrefixOf (s.drop p) = true → h.length ≤ p) := by
  intro s
  induction s with
  | nil =>
    refine ⟨[], [], rfl, fun _ => rfl, fun _ => ⟨⟨[], rfl⟩, ?_⟩⟩
    intro p
    simp
  | cons c t ih =>
    obtain ⟨h', r', heq, hpos, hneg⟩ := ih
    by_cases hp : B.isPrefixOf (c :: t) = true
    · refine ⟨[], (c :: h') :: r', ?_, fun _ => rfl, fun hf => absurd hp (by simp [hf])⟩
      simp [splitKeep, heq, hp]
    · have hp' : B.isPrefixOf (c :: t) = false := by
        cases hb : B.isPrefixOf (c :: t) with
        | true => exact absurd hb hp
        | false => rfl
      refine ⟨c :: h', r', ?_, fun hf => absurd hf hp, fun _ => ⟨?_, ?_⟩⟩
      · simp [splitKeep, heq, hp']
      · by_cases hpt : B.isPrefixOf t = true
        · have := hpos hpt
          subst this
          exact ⟨t, rfl⟩
        · have hpt' : B.isPrefixOf t = false := by
            cases hb : B.isPrefixOf t with
            | true => exact absurd hb hpt
            | false => rfl
          obtain ⟨⟨u, hu⟩, _⟩ := hneg hpt'
          exact ⟨u, by simp [hu]⟩
      · intro p hocc
        cases p with
        | zero => exact absurd hocc hp
        | succ p =>
          simp only [List.drop_succ_cons] at hocc
          by_cases hpt : B.isPrefixOf t = true
          · have := hpos hpt
            subst this
            simp only [List.length_cons, List.length_nil]
            omega
          · have hpt' : B.isPrefixOf t = false := by
              cases hb : B.isPrefixOf t with
              | true => exact absurd hb hpt
              | false => rfl
            have := (hneg hpt').2 p hocc
            simp only [List.length_cons]
            omega

theorem tv_isPrefixOf_nil_false (B : Str) (hB : B ≠ []) : B.isPrefixOf ([] : Str) = false := by
  cases B with
  | nil => exact absurd rfl hB
  | cons c t => rfl

theorem tv_splitKeep_head_no_occ (B s : Str) (hB : B ≠ []) :
    ∀ p, B.isPrefixOf (((splitKeep B s).headD []).drop p) = false := by
  obtain ⟨h, r, heq, hpos, hneg⟩ := tv_splitKeep_head B s
  intro p
  by_cases hp : B.isPrefixOf s = true
  · rw [heq, hpos hp]
    simp only [List.headD_cons, List.drop_nil]
    exact tv_isPrefixOf_nil_false B hB
  · have hp' : B.isPrefixOf s = false := by
      cases hb : B.isPrefixOf s with
      | true => exact absurd hb hp
      | false => rfl
    obtain ⟨⟨u, hu⟩, hbound⟩ := hneg hp'
    rw [heq]
    simp only [List.headD_cons]
    by_cases hlen : p < h.length
    · cases hb : B.isPrefixOf (h.drop p) with
      | false => rfl
      | true =>
        have hBpre : B <+: h.drop p := List.isPrefixOf_iff_prefix.mp hb
        have hsp : s.drop p = h.drop p ++ u := by
          rw [← hu, List.drop_append_eq_append_drop]
          have : p - h.length = 0 := by omega
          rw [this]
          simp
        have hBs : B <+: s.drop p := by
          rw [hsp]
          exact hBpre.trans (List.prefix_append _ u)
        have := hbound p (List.isPrefixOf_iff_prefix.mpr hBs)
        omega
    · have : h.drop p = [] := by
        apply List.drop_eq_nil_of_le
        omega
      rw [this]
      exact tv_isPrefixOf_nil_false B hB

theorem tv_toDigitsRevAux_eval :
    ∀ fuel n, n < fuel → evalRev (toDigitsRevAux n fuel) = n := by
  intro fuel
  induction fuel with
  | zero => intro n h; omega
  | succ fuel ih =>
    intro n h
    by_cases h10 : n < 10
    · simp [toDigitsRevAux, h10, evalRev]
    · have hrec : n / 10 < fuel := by
        have h1 : n / 10 < n := Nat.div_lt_self (by omega) (by omega)
        omega
      simp only [toDigitsRevAux, if_neg h10, evalRev, ih _ hrec]
      omega

theorem tv_toDigitsRevAux_lt10 :
    ∀ fuel n d, d ∈ toDigitsRevAux n fuel → d < 10 := by
  intro fuel
  induction fuel with
  | zero => intro n d h; simp [toDigitsRevAux] at h
  | succ fuel ih =>
    intro n d h
    by_cases h10 : n < 10
    · simp [toDigitsRevAux, h10] at h
      omega
    · simp only [toDigitsRevAux, if_neg h10, List.mem_cons] at h
      rcases h with h | h
      · omega
      · exact ih _ _ h

theorem tv_charDigitVal_digitChar (d : Nat) (h : d < 10) :
    charDigitVal (digitChar10 d) = d := by
  interval_cases d <;> rfl

theorem tv_map_digitChar_inj :
    ∀ ds es : List Nat, (∀ d ∈ ds, d < 10) → (∀ e ∈ es, e < 10) →
      ds.map digitChar10 = es.map digitChar10 → ds = es := by
  intro ds
  induction ds with
  | nil =>
    intro es _ _ h
    cases es with
    | nil => rfl
    | cons e es => simp at h
  | cons d ds ih =>
    intro es hds hes h
    cases es with
    | nil => simp at h
    | cons e es =>
      simp only [List.map_cons, List.cons.injEq] at h
      have hd : d = e := by
        have h1 := tv_charDigitVal_digitChar d (hds d (by simp))
        have h2 := tv_charDigitVal_digitChar e (hes e (by simp))
        rw [← h1, ← h2, h.1]
      have ht : ds = es :=
        ih es (fun x hx => hds x (by simp [hx])) (fun x hx => hes x (by simp [hx])) h.2
      rw [hd, ht]

theorem tv_natToChars_inj (m n : Nat) (h : natToChars m = natToChars n) : m = n := by
  unfold natToChars at h
  have h' := List.reverse_injective h
  have hd : toDigitsRev m = toDigitsRev n := by
    unfold toDigitsRev at h' ⊢
    exact tv_map_digitChar_inj _ _ (fun d hd => tv_toDigitsRevAux_lt10 _ _ _ hd)
      (fun d hd => tv_toDigitsRevAux_lt10 _ _ _ hd) h'
  have hm := tv_toDigitsRevAux_eval (m + 1) m (by omega)
  have hn := tv_toDigitsRevAux_eval (n + 1) n (by omega)
  rw [← hm, ← hn]
  unfold toDigitsRev at hd
  rw [hd]

theorem tv_graph_key_inj (m n : Nat) (h : graph_key m = graph_key n) : m = n := by
  unfold graph_key at h
  exact tv_natToChars_inj m n (List.append_cancel_left h)

theorem tv_headerAt_some (t : Str) (p : Str × Str) (h : headerAt t = some p) :
    interpForLit.isPrefixOf t = true := by
  by_cases hp : interpForLit.isPrefixOf t = true
  · exact hp
  · exfalso
    simp [headerAt, hp] at h

theorem tv_interpHeader_of_For (t : Str) (h : interpForLit.isPrefixOf t = true) :
    interpHeaderLit.isPrefixOf t = true := by
  have h1 : interpHeaderLit.isPrefixOf interpForLit = true := by decide
  exact List.isPrefixOf_iff_prefix.mpr
    ((List.isPrefixOf_iff_prefix.mp h1).trans (List.isPrefixOf_iff_prefix.mp h))

theorem tv_headerMatch_none_of_no_occ (s : Str)
    (hno : ∀ p, interpHeaderLit.isPrefixOf (s.drop p) = false) : headerMatch s = none := by
  cases hm : headerMatch s with
  | none => rfl
  | some pr =>
    exfalso
    unfold headerMatch at hm
    cases hsc : scanO headerAt s with
    | none => rw [hsc] at hm; simp at hm
    | some q =>
      obtain ⟨t, hsuf, hat⟩ := tv_scanO_some headerAt s q hsc
      have hFor := tv_headerAt_some t q hat
      have hHead := tv_interpHeader_of_For t hFor
      have ht : t = s.drop (s.length - t.length) := List.suffix_iff_eq_drop.mp hsuf
      rw [ht] at hHead
      rw [hno (s.length - t.length)] at hHead
      exact Bool.false_ne_true hHead

theorem tv_blank_no_occ (s : Str) (h : (pstrip s).isEmpty = true) :
    ∀ p, interpHeaderLit.isPrefixOf (s.drop p) = false := by
  have hws := tv_all_ws_of_pstrip_nil s (List.isEmpty_iff.mp h)
  intro p
  cases hb : interpHeaderLit.isPrefixOf (s.drop p) with
  | false => rfl
  | true =>
    exfalso
    obtain ⟨u, hu⟩ := List.isPrefixOf_iff_prefix.mp hb
    have hI : 'I' ∈ s.drop p := by
      rw [← hu]
      apply List.mem_append_left
      decide
    have := hws 'I' (List.mem_of_mem_drop hI)
    simp [isWs] at this

theorem tv_headerMatch_none_of_blank (s : Str) (h : (pstrip s).isEmpty = true) :
    headerMatch s = none :=
  tv_headerMatch_none_of_no_occ s (tv_blank_no_occ s h)

theorem tv_ptg_none (sec gid : Str) (st : ParserState) (h : headerMatch sec = none) :
    parse_task_graph sec gid st = st := by
  unfold parse_task_graph
  rw [h]

theorem tv_ptg_graphs_some (sec gid : Str) (st : ParserState) (dv th : Str)
    (h : headerMatch sec = some (dv, th)) :
    ∃ tg mem dts, parse_task_graph sec gid st
      = { graphs := dinsert gid tg st.graphs, memory_objects := mem,
          bytecode_details := dts } := by
  unfold parse_task_graph
  rw [h]
  exact ⟨_, _, _, rfl⟩

theorem tv_parse_sections_keys :
    ∀ secs gid (st : ParserState),
      (∀ k ∈ st.graphs.map Prod.fst, ∃ m, m < gid ∧ k = graph_key m) →
      (parse_sections secs gid st).graphs.map Prod.fst
        = st.graphs.map Prod.fst ++ expected_keys secs gid := by
  intro secs
  induction secs with
  | nil =>
    intro gid st _
    simp [parse_sections, expected_keys]
  | cons s rest ih =>
    intro gid st hbound
    by_cases hblank : (pstrip s).isEmpty = true
    · have hstep : parse_sections (s :: rest) gid st = parse_sections rest gid st := by
        simp [parse_sections, hblank]
      rw [hstep, ih gid st hbound]
      simp [expected_keys, hblank]
    · have hstep : parse_sections (s :: rest) gid st
          = parse_sections rest (gid + 1) (parse_task_graph s (graph_key gid) st) := by
        simp [parse_sections, hblank]
      rw [hstep]
      cases hm : headerMatch s with
      | none =>
        rw [tv_ptg_none s (graph_key gid) st hm]
        rw [ih (gid + 1) st (fun k hk => by
          obtain ⟨m, hlt, hkm⟩ := hbound k hk
          exact ⟨m, by omega, hkm⟩)]
        simp [expected_keys, hblank, hm]
      | some pr =>
        obtain ⟨dv, th⟩ := pr
        obtain ⟨tg, mem, dts, hst⟩ := tv_ptg_graphs_some s (graph_key gid) st dv th hm
        have hfresh : graph_key gid ∉ st.graphs.map Prod.fst := by
          intro hmem
          obtain ⟨m, hlt, hkm⟩ := hbound _ hmem
          have := tv_graph_key_inj gid m hkm
          omega
        have hkeys : (parse_task_graph s (graph_key gid) st).graphs.map Prod.fst
            = st.graphs.map Prod.fst ++ [graph_key gid] := by
          rw [hst]
          exact tv_dinsert_map_fst_not_mem _ tg st.graphs hfresh
        rw [ih (gid + 1) _ (fun k hk => by
          rw [hkeys] at hk
          rcases List.mem_append.mp hk with hk | hk
          · obtain ⟨m, hlt, hkm⟩ := hbound k hk
            exact ⟨m, by omega, hkm⟩
          · simp at hk
            exact ⟨gid, by omega, hk⟩)]
        rw [hkeys]
        simp [expected_keys, hblank, hm, List.append_assoc]

theorem tv_build_deps_aux_length (gs : List TaskGraph) :
    ∀ prevs, (build_deps_aux prevs gs).length = gs.length := by
  induction gs with
  | nil => intro prevs; rfl
  | cons g rest ih =>
    intro prevs
    simp [build_deps_aux, ih]

theorem tv_rebuild_graphs_map_fst (g : Dict TaskGraph) :
    (rebuild_graphs g).map Prod.fst = g.map Prod.fst := by
  unfold rebuild_graphs build_dependencies
  apply List.map_fst_zip
  rw [tv_build_deps_aux_length]
  simp

theorem tv_parse_log_keys (log : Str) :
    (parse_log log).graphs.map Prod.fst = expected_keys (splitKeep interpHeaderLit log) 0 := by
  unfold parse_log parse_log_from
  simp only [tv_rebuild_graphs_map_fst]
  have := tv_parse_sections_keys (splitKeep interpHeaderLit log) 0 fresh_state
    (fun k hk => by simp [fresh_state] at hk)
  simpa [fresh_state] using this

theorem tv_expected_keys_length :
    ∀ secs gid, (expected_keys secs gid).length
      = secs.countP (fun s => (headerMatch s).isSome) := by
  intro secs
  induction secs with
  | nil => intro gid; simp [expected_keys]
  | cons s rest ih =>
    intro gid
    by_cases hblank : (pstrip s).isEmpty = true
    · have hm := tv_headerMatch_none_of_blank s hblank
      simp [expected_keys, hblank, List.countP_cons, hm, ih]
    · cases hm : headerMatch s with
      | none => simp [expected_keys, hblank, List.countP_cons, hm, ih]
      | some pr => simp [expected_keys, hblank, List.countP_cons, hm, ih]

/-- Claim C2: for every log text, the number of TaskGraphs in the parser's
graphs map after `parse_log` equals the number of banner occurrences whose
device and thread both resolve (each banner occurrence opens one tail
section of the split, and the first section contains no banner); a section
whose banner does not resolve is silently skipped: `_parse_task_graph`
returns with the parser state unchanged. -/
theorem spec_c2_graph_count :
    (∀ log, (parse_log log).graphs.length = count_resolvable_banners log)
    ∧ (∀ sec gid st, headerMatch sec = none → parse_task_graph sec gid st = st) := by
  constructor
  · intro log
    have hkeys := tv_parse_log_keys log
    have hlen : (parse_log log).graphs.length
        = (expected_keys (splitKeep interpHeaderLit log) 0).length := by
      rw [← hkeys, List.length_map]
    rw [hlen, tv_expected_keys_length]
    obtain ⟨h, r, heq, _, _⟩ := tv_splitKeep_head interpHeaderLit log
    have hhead : headerMatch h = none := by
      apply tv_headerMatch_none_of_no_occ
      intro p
      have := tv_splitKeep_head_no_occ interpHeaderLit log (by decide) p
      rwa [heq, List.headD_cons] at this
    rw [heq]
    unfold count_resolvable_banners
    rw [heq]
    simp [List.countP_cons, hhead]
  · intro sec gid st h
    exact tv_ptg_none sec gid st h

/-- Witness for C2: the count identity evaluated on a concrete log, and a
concrete unresolvable section leaving a fresh parser untouched. -/
theorem spec_c2_witness :
    (parse_log log_c9).graphs.length = count_resolvable_banners log_c9
    ∧ parse_task_graph "junk".toList "TaskGraph_0".toList fresh_state = fresh_state :=
  ⟨spec_c2_graph_count.1 log_c9,
   spec_c2_graph_count.2 "junk".toList "TaskGraph_0".toList fresh_state (by decide)⟩

/-- Claim C9 fails on the code: `parse_log` advances the identifier counter
for every non-blank section, including ones whose banner does not resolve.
On `log_c9` (a junk preamble, then one resolvable banner) the parse
discovers exactly one graph, but its key is `TaskGraph_1`, not
`TaskGraph_0`. -/
theorem spec_c9_counterexample :
    (parse_log log_c9).graphs.map Prod.fst = [graph_key 1]
    ∧ (parse_log log_c9).graphs.length = 1
    ∧ graph_key 1 ≠ graph_key 0 := by
  refine ⟨by decide, by decide, by decide⟩

/-- Claim C9 amended: identifiers are assigned as `TaskGraph_<n>` in section
encounter order, where `n` counts every non-blank section (also the skipped,
unresolvable ones), so the keys follow discovery order but need not form a
contiguous zero-based sequence. -/
theorem spec_c9_amended (log : Str) :
    (parse_log log).graphs.map Prod.fst = expected_keys (splitKeep interpHeaderLit log) 0 :=
  tv_parse_log_keys log


theorem tv_edge_mem_nil (pid h : Str) : ¬ edge_mem [] pid h := by
  rintro ⟨l, hl, _⟩
  simp [dlookup] at hl

theorem tv_add_edge_eq_of_mem (d : Dict (List Str)) (pid h : Str) (l : List Str)
    (hl : dlookup d pid = some l) (hmem : h ∈ l) : add_edge d pid h = d := by
  simp [add_edge, hl, hmem]

theorem tv_dlookup_add_edge_none (d : Dict (List Str)) (pid h p' : Str)
    (hl : dlookup d pid = none) :
    dlookup (add_edge d pid h) p' = if p' = pid then some [h] else dlookup d p' := by
  simp only [add_edge, hl]
  by_cases hp : p' = pid
  · subst hp
    rw [if_pos rfl, tv_dlookup_append_of_none d _ p' hl]
    simp [dlookup]
  · rw [if_neg hp]
    cases hd : dlookup d p' with
    | some w => exact tv_dlookup_append_of_some d _ p' w hd
    | none =>
      rw [tv_dlookup_append_of_none d _ p' hd]
      have hne : ¬ pid = p' := fun hh => hp hh.symm
      simp [dlookup, hne]

theorem tv_dlookup_add_edge_new (d : Dict (List Str)) (pid h p' : Str) (l : List Str)
    (hl : dlookup d pid = some l) (hmem : h ∉ l) :
    dlookup (add_edge d pid h) p' = if p' = pid then some (l ++ [h]) else dlookup d p' := by
  simp only [add_edge, hl, if_neg hmem]
  by_cases hp : p' = pid
  · subst hp
    rw [if_pos rfl, tv_dlookup_dinsert_self]
  · rw [if_neg hp]
    exact tv_dlookup_dinsert_ne _ _ _ d (fun hh => hp hh.symm)

theorem tv_edge_mem_add_edge (d : Dict (List Str)) (pid h p' h' : Str) :
    edge_mem (add_edge d pid h) p' h' ↔ (p' = pid ∧ h' = h) ∨ edge_mem d p' h' := by
  cases hl : dlookup d pid with
  | none =>
    unfold edge_mem
    rw [tv_dlookup_add_edge_none d pid h p' hl]
    by_cases hp : p' = pid
    · subst hp
      rw [if_pos rfl]
      constructor
      · rintro ⟨l, hsome, hmem⟩
        cases hsome
        simp at hmem
        exact Or.inl ⟨rfl, hmem⟩
      · rintro (⟨-, hh⟩ | ⟨l, hsome, hmem⟩)
        · exact ⟨[h], rfl, by simp [hh]⟩
        · rw [hl] at hsome
          cases hsome
    · rw [if_neg hp]
      constructor
      · exact fun he => Or.inr he
      · rintro (⟨hh, -⟩ | he)
        · exact absurd hh hp
        · exact he
  | some l =>
    by_cases hmem : h ∈ l
    · rw [tv_add_edge_eq_of_mem d pid h l hl hmem]
      constructor
      · exact Or.inr
      · rintro (⟨rfl, rfl⟩ | he)
        · exact ⟨l, hl, hmem⟩
        · exact he
    · unfold edge_mem
      rw [tv_dlookup_add_edge_new d pid h p' l hl hmem]
      by_cases hp : p' = pid
      · subst hp
        rw [if_pos rfl]
        constructor
        · rintro ⟨l', hsome, hmem'⟩
          cases hsome
          rcases List.mem_append.mp hmem' with hm | hm
          · exact Or.inr ⟨l, hl, hm⟩
          · simp at hm
            exact Or.inl ⟨rfl, hm⟩
        · rintro (⟨-, hh⟩ | ⟨l', hsome, hmem'⟩)
          · exact ⟨l ++ [h], rfl, by simp [hh]⟩
          · rw [hl] at hsome
            cases hsome
            exact ⟨l ++ [h], rfl, by simp [hmem']⟩
      · rw [if_neg hp]
        constructor
        · exact fun he => Or.inr he
        · rintro (⟨hh, -⟩ | he)
          · exact absurd hh hp
          · exact he

theorem tv_add_edge_nodup (d : Dict (List Str)) (pid h : Str)
    (hd : ∀ p l, dlookup d p = some l → l.Nodup) :
    ∀ p l, dlookup (add_edge d pid h) p = some l → l.Nodup := by
  intro p l hlook
  cases hl : dlookup d pid with
  | none =>
    rw [tv_dlookup_add_edge_none d pid h p hl] at hlook
    by_cases hp : p = pid
    · rw [if_pos hp] at hlook
      cases hlook
      simp
    · rw [if_neg hp] at hlook
      exact hd p l hlook
  | some l0 =>
    by_cases hmem : h ∈ l0
    · rw [tv_add_edge_eq_of_mem d pid h l0 hl hmem] at hlook
      exact hd p l hlook
    · rw [tv_dlookup_add_edge_new d pid h p l0 hl hmem] at hlook
      by_cases hp : p = pid
      · rw [if_pos hp] at hlook
        cases hlook
        have h0 := hd pid l0 hl
        rw [List.nodup_append]
        refine ⟨h0, List.nodup_singleton h, ?_⟩
        intro a ha hb
        simp at hb
        subst hb
        exact hmem ha
      · rw [if_neg hp] at hlook
        exact hd p l hlook

theorem tv_inner_fold_mem (hsh : Str) :
    ∀ (prevs : List TaskGraph) (deps : Dict (List Str)) (p' h' : Str),
      edge_mem (prevs.foldl
          (fun deps p =>
            if hsh ∈ p.objects_produced then add_edge deps p.graph_id hsh else deps)
          deps) p' h'
      ↔ edge_mem deps p' h'
        ∨ (h' = hsh ∧ ∃ p ∈ prevs, p.graph_id = p' ∧ hsh ∈ p.objects_produced) := by
  intro prevs
  induction prevs with
  | nil =>
    intro deps p' h'
    simp
  | cons p ps ih =>
    intro deps p' h'
    rw [List.foldl_cons, ih]
    by_cases hp : hsh ∈ p.objects_produced
    · rw [if_pos hp, tv_edge_mem_add_edge]
      constructor
      · rintro ((⟨hid, hh⟩ | he) | ⟨hh, q, hq, hid, hprod⟩)
        · exact Or.inr ⟨hh, p, by simp, hid.symm, hp⟩
        · exact Or.inl he
        · exact Or.inr ⟨hh, q, by simp [hq], hid, hprod⟩
      · rintro (he | ⟨hh, q, hq, hid, hprod⟩)
        · exact Or.inl (Or.inr he)
        · rcases List.mem_cons.mp hq with rfl | hq
          · exact Or.inl (Or.inl ⟨hid.symm, hh⟩)
          · exact Or.inr ⟨hh, q, hq, hid, hprod⟩
    · rw [if_neg hp]
      constructor
      · rintro (he | ⟨hh, q, hq, hid, hprod⟩)
        · exact Or.inl he
        · exact Or.inr ⟨hh, q, by simp [hq], hid, hprod⟩
      · rintro (he | ⟨hh, q, hq, hid, hprod⟩)
        · exact Or.inl he
        · rcases List.mem_cons.mp hq with rfl | hq
          · exact absurd hprod hp
          · exact Or.inr ⟨hh, q, hq, hid, hprod⟩

theorem tv_deps_fold_mem (prevs : List TaskGraph) :
    ∀ (hs : List Str) (deps : Dict (List Str)) (p' h' : Str),
      edge_mem (hs.foldl
          (fun deps hsh =>
            prevs.foldl
              (fun deps p =>
                if hsh ∈ p.objects_produced then add_edge deps p.graph_id hsh else deps)
              deps)
          deps) p' h'
      ↔ edge_mem deps p' h'
        ∨ (h' ∈ hs ∧ ∃ p ∈ prevs, p.graph_id = p' ∧ h' ∈ p.objects_produced) := by
  intro hs
  induction hs with
  | nil =>
    intro deps p' h'
    simp
  | cons hsh rest ih =>
    intro deps p' h'
    rw [List.foldl_cons, ih, tv_inner_fold_mem]
    constructor
    · rintro ((he | ⟨hh, hp⟩) | ⟨hmem, hp⟩)
      · exact Or.inl he
      · exact Or.inr ⟨by simp [hh], hh ▸ hp⟩
      · exact Or.inr ⟨by simp [hmem], hp⟩
    · rintro (he | ⟨hmem, hp⟩)
      · exact Or.inl (Or.inl he)
      · rcases List.mem_cons.mp hmem with rfl | hmem
        · exact Or.inl (Or.inr ⟨rfl, hp⟩)
        · exact Or.inr ⟨hmem, hp⟩

theorem tv_deps_for_mem (prevs : List TaskGraph) (g : TaskGraph) (p' h' : Str) :
    edge_mem (deps_for prevs g) p' h'
    ↔ edge_mem g.dependencies p' h'
      ∨ (h' ∈ g.objects_consumed
          ∧ ∃ p ∈ prevs, p.graph_id = p' ∧ h' ∈ p.objects_produced) :=
  tv_deps_fold_mem prevs g.objects_consumed g.dependencies p' h'

theorem tv_inner_fold_nodup (hsh : Str) :
    ∀ (prevs : List TaskGraph) (deps : Dict (List Str)),
      (∀ p l, dlookup deps p = some l → l.Nodup) →
      ∀ p l, dlookup (prevs.foldl
          (fun deps p =>
            if hsh ∈ p.objects_produced then add_edge deps p.graph_id hsh else deps)
          deps) p = some l → l.Nodup := by
  intro prevs
  induction prevs with
  | nil => intro deps hd; exact hd
  | cons p ps ih =>
    intro deps hd
    rw [List.foldl_cons]
    apply ih
    by_cases hp : hsh ∈ p.objects_produced
    · rw [if_pos hp]
      exact tv_add_edge_nodup deps p.graph_id hsh hd
    · rw [if_neg hp]
      exact hd

theorem tv_deps_for_nodup (prevs : List TaskGraph) (g : TaskGraph)
    (hd : ∀ p l, dlookup g.dependencies p = some l → l.Nodup) :
    ∀ p l, dlookup (deps_for prevs g) p = some l → l.Nodup := by
  unfold deps_for
  generalize hdeps : g.dependencies = deps at hd
  clear hdeps
  induction g.objects_consumed generalizing deps with
  | nil => exact hd
  | cons hsh rest ih =>
    rw [List.foldl_cons]
    exact ih _ (tv_inner_fold_nodup hsh prevs deps hd)

theorem tv_build_deps_aux_getD :
    ∀ (gs : List TaskGraph) (prevs : List TaskGraph) (i : Nat), i < gs.length →
      (build_deps_aux prevs gs).getD i emptyTG
        = { gs.getD i emptyTG with
            dependencies := deps_for (prevs ++ gs.take i) (gs.getD i emptyTG) } := by
  intro gs
  induction gs with
  | nil => intro prevs i hi; simp at hi
  | cons g rest ih =>
    intro prevs i hi
    cases i with
    | zero => simp [build_deps_aux, List.getD]
    | succ i =>
      have hi' : i < rest.length := by simpa using hi
      have := ih (prevs ++ [g]) i hi'
      simp only [build_deps_aux, List.getD_cons_succ, List.take_succ_cons]
      rw [this, List.append_assoc]
      rfl

/-- Claim C1: after the dependency pass, graph `i`'s edge list holds hash
`hsh` under the id of graph `j` exactly when `j` was discovered strictly
before `i`, `hsh` is produced by graph `j` and consumed by graph `i` (so an
edge arises for every earlier producer, not only the nearest); and each
per-source edge list is duplicate-free.  The hypotheses (distinct ids,
dependency maps empty before the pass) hold for every parse: ids are the
distinct `TaskGraph_<n>` keys and `_parse_task_graph` never touches
`dependencies`. -/
theorem spec_c1_build_dependencies (gs : List TaskGraph)
    (hids : (gs.map TaskGraph.graph_id).Nodup)
    (hdeps : ∀ g ∈ gs, g.dependencies = []) :
    (∀ i j hsh, i < gs.length → j < gs.length →
      (edge_mem ((build_dependencies gs).getD i emptyTG).dependencies
          ((gs.getD j emptyTG).graph_id) hsh
        ↔ j < i ∧ hsh ∈ (gs.getD j emptyTG).objects_produced
            ∧ hsh ∈ (gs.getD i emptyTG).objects_consumed))
    ∧ (∀ i pid l, i < gs.length →
        dlookup ((build_dependencies gs).getD i emptyTG).dependencies pid = some l →
        l.Nodup) := by
  have hmemi : ∀ i, (hi : i < gs.length) → gs.getD i emptyTG ∈ gs := by
    intro i hi
    rw [List.getD_eq_getElem gs emptyTG hi]
    exact List.getElem_mem hi
  constructor
  · intro i j hsh hi hj
    unfold build_dependencies
    rw [tv_build_deps_aux_getD gs [] i hi]
    have hdepi : (gs.getD i emptyTG).dependencies = [] := hdeps _ (hmemi i hi)
    show edge_mem (deps_for ([] ++ gs.take i) (gs.getD i emptyTG)) _ _ ↔ _
    rw [List.nil_append, tv_deps_for_mem, hdepi]
    constructor
    · rintro (he | ⟨hcons, p, hp, hid, hprod⟩)
      · exact absurd he (tv_edge_mem_nil _ _)
      · obtain ⟨j', hj', hgj'⟩ := List.mem_take_iff_getElem.mp hp
        have hj'len : j' < gs.length := by
          have := Nat.lt_min.mp hj'
          exact this.2
        have hj'i : j' < i := by
          have := Nat.lt_min.mp hj'
          exact this.1
        have hb1 : j' < (gs.map TaskGraph.graph_id).length := by simpa using hj'len
        have hb2 : j < (gs.map TaskGraph.graph_id).length := by simpa using hj
        have hmap : (gs.map TaskGraph.graph_id)[j'] = (gs.map TaskGraph.graph_id)[j] := by
          rw [List.getElem_map, List.getElem_map, hgj', hid,
            List.getD_eq_getElem gs emptyTG hj]
        have hget : (gs.map TaskGraph.graph_id).get ⟨j', hb1⟩
            = (gs.map TaskGraph.graph_id).get ⟨j, hb2⟩ := by
          simpa [List.get_eq_getElem] using hmap
        have hj'j : j' = j := congrArg Fin.val (List.nodup_iff_injective_get.mp hids hget)
        subst hj'j
        refine ⟨hj'i, ?_, hcons⟩
        rw [List.getD_eq_getElem gs emptyTG hj'len, hgj']
        exact hprod
    · rintro ⟨hji, hprod, hcons⟩
      refine Or.inr ⟨hcons, gs.getD j emptyTG, ?_, rfl, hprod⟩
      apply List.mem_take_iff_getElem.mpr
      refine ⟨j, ?_, ?_⟩
      · exact Nat.lt_min.mpr ⟨hji, hj⟩
      · rw [List.getD_eq_getElem gs emptyTG hj]
  · intro i pid l hi hlook
    unfold build_dependencies at hlook
    rw [tv_build_deps_aux_getD gs [] i hi] at hlook
    have hdepi : (gs.getD i emptyTG).dependencies = [] := hdeps _ (hmemi i hi)
    refine tv_deps_for_nodup _ _ ?_ pid l hlook
    rw [hdepi]
    intro p l' hl'
    simp [dlookup] at hl'

/-- Witness for C1: a producing graph followed by a consuming graph; the
edge-membership equivalence evaluated at those graphs. -/
theorem spec_c1_witness :
    let gsW : List TaskGraph :=
      [{ graph_id := "TaskGraph_0".toList, device := "CPU0".toList, thread := "T1".toList,
         objects_produced := ["aa11".toList] },
       { graph_id := "TaskGraph_1".toList, device := "GPU".toList, thread := "T2".toList,
         objects_consumed := ["aa11".toList] }]
    edge_mem ((build_dependencies gsW).getD 1 emptyTG).dependencies
        ((gsW.getD 0 emptyTG).graph_id) "aa11".toList
      ↔ 0 < 1 ∧ "aa11".toList ∈ (gsW.getD 0 emptyTG).objects_produced
          ∧ "aa11".toList ∈ (gsW.getD 1 emptyTG).objects_consumed := by
  exact (spec_c1_build_dependencies _ (by decide) (by decide)).1 1 0 "aa11".toList
    (by decide) (by decide)

/-- Claim C3: on the one-banner one-ALLOC log, the parse yields exactly one
TaskGraph (`TaskGraph_0`) whose single operation is an ALLOC of size 1024
and batch size 4 on `foo.IntArray@aa11`, and exactly one MemoryObject
registered under hash `aa11` with type `IntArray`, status `Allocated`,
size 1024. -/
theorem spec_c3_alloc_scenario :
    (parse_log log_c3).graphs.map Prod.fst = ["TaskGraph_0".toList]
    ∧ ((parse_log log_c3).graphs.map fun p =>
        p.2.operations.map fun o => (o.operation, o.objects, o.size, o.batch_size))
      = [[("ALLOC".toList, ["foo.IntArray@aa11".toList], (1024 : Int), (4 : Int))]]
    ∧ (parse_log log_c3).memory_objects.map
        (fun p => (p.1, p.2.object_type, p.2.current_status, p.2.size))
      = [("aa11".toList, "IntArray".toList, "Allocated".toList, (1024 : Int))] := by
  refine ⟨by decide, by decide, by decide⟩

/-- Claim C8: `parse_log` on two independently fresh parser instances gives
structurally equal graphs maps, object registries and detail lists — the
parse result is a pure function of the initial state and the text, and
fresh instances share the same initial state. -/
theorem spec_c8_fresh_determinism (s1 s2 : ParserState) (log : Str)
    (h1 : s1 = fresh_state) (h2 : s2 = fresh_state) :
    (parse_log_from s1 log).graphs = (parse_log_from s2 log).graphs
    ∧ (parse_log_from s1 log).memory_objects = (parse_log_from s2 log).memory_objects
    ∧ (parse_log_from s1 log).bytecode_details = (parse_log_from s2 log).bytecode_details := by
  subst h1
  subst h2
  exact ⟨rfl, rfl, rfl⟩

/-- Witness for C8 at a concrete log. -/
theorem spec_c8_witness :
    (parse_log_from fresh_state log_c3).graphs = (parse_log_from fresh_state log_c3).graphs
    ∧ (parse_log_from fresh_state log_c3).memory_objects
        = (parse_log_from fresh_state log_c3).memory_objects
    ∧ (parse_log_from fresh_state log_c3).bytecode_details
        = (parse_log_from fresh_state log_c3).bytecode_details :=
  spec_c8_fresh_determinism fresh_state fresh_state log_c3 rfl rfl

theorem tv_process_ref_produced (op : BytecodeOperation) (oi : Int) (ref : Str)
    (st : TaskGraph × Dict MemoryObject) (h : Str) :
    h ∈ (process_ref op oi ref st).1.objects_produced
    ↔ h ∈ st.1.objects_produced ∨ (producedKind op = true ∧ extract_hash ref = some h) := by
  cases hh : extract_hash ref with
  | none => simp [process_ref, hh]
  | some h0 =>
    by_cases h1 : op.operation = "ALLOC".toList
    · have hpk : producedKind op = true := by
        unfold producedKind
        rw [h1]
        decide
    
      simp only [process_ref, hh]
      rw [if_pos h1]
      simp only [tv_mem_setAdd, hpk, hh, true_and, Option.some.injEq]
      constructor
      · rintro (rfl | hm)
        · exact Or.inr rfl
        · exact Or.inl hm
      · rintro (hm | rfl)
        · exact Or.inr hm
        · exact Or.inl rfl
    · by_cases h2 : "TRANSFER".toList.isPrefixOf op.operation = true
      · have hpk : producedKind op = true := by
          unfold producedKind
          rw [h2, Bool.or_true]
        simp only [process_ref, hh]
        rw [if_neg h1, if_pos h2]
        simp only [tv_mem_setAdd, hpk, hh, true_and, Option.some.injEq]
        constructor
        · rintro (rfl | hm)
          · exact Or.inr rfl
          · exact Or.inl hm
        · rintro (hm | rfl)
          · exact Or.inr hm
          · exact Or.inl rfl
      · have hpk : producedKind op = false := by
          unfold producedKind
          have e1 : (op.operation == "ALLOC".toList) = false := by
            cases hb : op.operation == "ALLOC".toList with
            | false => rfl
            | true => exact absurd (by simpa using hb) h1
          have e2 : ("TRANSFER".toList.isPrefixOf op.operation) = false := by
            cases hb : "TRANSFER".toList.isPrefixOf op.operation with
            | false => rfl
            | true => exact absurd hb h2
          rw [e1, e2]
          rfl
        by_cases h3 : op.operation = "DEALLOC".toList
        · simp only [process_ref, hh]
          rw [if_neg h1, if_neg h2, if_pos h3]
          simp [hpk]
        · by_cases h4 : op.operation = "ON_DEVICE_BUFFER".toList
          · simp only [process_ref, hh]
            rw [if_neg h1, if_neg h2, if_neg h3, if_pos h4]
            simp [hpk, tv_mem_setAdd]
          · simp only [process_ref, hh]
            rw [if_neg h1, if_neg h2, if_neg h3, if_neg h4]
            simp [hpk, tv_mem_setAdd]

theorem tv_process_ref_consumed (op : BytecodeOperation) (oi : Int) (ref : Str)
    (st : TaskGraph × Dict MemoryObject) (h : Str) :
    h ∈ (process_ref op oi ref st).1.objects_consumed
    ↔ h ∈ st.1.objects_consumed ∨ (consumedKind op = true ∧ extract_hash ref = some h) := by
  cases hh : extract_hash ref with
  | none => simp [process_ref, hh]
  | some h0 =>
    by_cases h1 : op.operation = "ALLOC".toList
    · have hck : consumedKind op = false := by
        unfold consumedKind
        rw [h1]
        decide
      simp only [process_ref, hh]
      rw [if_pos h1]
      simp [hck]
    · by_cases h2 : "TRANSFER".toList.isPrefixOf op.operation = true
      · have hck : consumedKind op = false := by
          unfold consumedKind
          rw [h2]
          simp
        simp only [process_ref, hh]
        rw [if_neg h1, if_pos h2]
        simp [hck]
      · have e1 : (op.operation == "ALLOC".toList) = false := by
          cases hb : op.operation == "ALLOC".toList with
          | false => rfl
          | true => exact absurd (by simpa using hb) h1
        have e2 : ("TRANSFER".toList.isPrefixOf op.operation) = false := by
          cases hb : "TRANSFER".toList.isPrefixOf op.operation with
          | false => rfl
          | true => exact absurd hb h2
        by_cases h3 : op.operation = "DEALLOC".toList
        · have hck : consumedKind op = false := by
            unfold consumedKind
            rw [h3]
            decide
          simp only [process_ref, hh]
          rw [if_neg h1, if_neg h2, if_pos h3]
          simp [hck]
        · have e3 : (op.operation == "DEALLOC".toList) = false := by
            cases hb : op.operation == "DEALLOC".toList with
            | false => rfl
            | true => exact absurd (by simpa using hb) h3
          have hck : consumedKind op = true := by
            unfold consumedKind
            rw [e1, e2, e3]
            rfl
          by_cases h4 : op.operation = "ON_DEVICE_BUFFER".toList
          · simp only [process_ref, hh]
            rw [if_neg h1, if_neg h2, if_neg h3, if_pos h4]
            simp only [tv_mem_setAdd, hck, hh, true_and, Option.some.injEq]
            constructor
            · rintro (rfl | hm)
              · exact Or.inr rfl
              · exact Or.inl hm
            · rintro (hm | rfl)
              · exact Or.inr hm
              · exact Or.inl rfl
          · simp only [process_ref, hh]
            rw [if_neg h1, if_neg h2, if_neg h3, if_neg h4]
            simp only [tv_mem_setAdd, hck, hh, true_and, Option.some.injEq]
            constructor
            · rintro (rfl | hm)
              · exact Or.inr rfl
              · exact Or.inl hm
            · rintro (hm | rfl)
              · exact Or.inr hm
              · exact Or.inl rfl

theorem tv_fold_refs_produced (op : BytecodeOperation) (oi : Int) :
    ∀ (objs : List Str) (st : TaskGraph × Dict MemoryObject) (h : Str),
      h ∈ (objs.foldl (fun acc ref => process_ref op oi ref acc) st).1.objects_produced
      ↔ h ∈ st.1.objects_produced ∨ (producedKind op = true ∧ h ∈ ref_hashes objs) := by
  intro objs
  induction objs with
  | nil =>
    intro st h
    simp [ref_hashes]
  | cons r rs ih =>
    intro st h
    rw [List.foldl_cons, ih, tv_process_ref_produced]
    unfold ref_hashes
    rw [List.filterMap_cons]
    cases hh : extract_hash r with
    | none => simp
    | some h0 =>
      simp only [List.mem_cons]
      constructor
      · rintro ((hm | ⟨hpk, hhr⟩) | ⟨hpk, hmem⟩)
        · exact Or.inl hm
        · cases hhr
          exact Or.inr ⟨hpk, Or.inl rfl⟩
        · exact Or.inr ⟨hpk, Or.inr hmem⟩
      · rintro (hm | ⟨hpk, rfl | hmem⟩)
        · exact Or.inl (Or.inl hm)
        · exact Or.inl (Or.inr ⟨hpk, rfl⟩)
        · exact Or.inr ⟨hpk, hmem⟩

theorem tv_fold_refs_consumed (op : BytecodeOperation) (oi : Int) :
    ∀ (objs : List Str) (st : TaskGraph × Dict MemoryObject) (h : Str),
      h ∈ (objs.foldl (fun acc ref => process_ref op oi ref acc) st).1.objects_consumed
      ↔ h ∈ st.1.objects_consumed ∨ (consumedKind op = true ∧ h ∈ ref_hashes objs) := by
  intro objs
  induction objs with
  | nil =>
    intro st h
    simp [ref_hashes]
  | cons r rs ih =>
    intro st h
    rw [List.foldl_cons, ih, tv_process_ref_consumed]
    unfold ref_hashes
    rw [List.filterMap_cons]
    cases hh : extract_hash r with
    | none => simp
    | some h0 =>
      simp only [List.mem_cons]
      constructor
      · rintro ((hm | ⟨hck, hhr⟩) | ⟨hck, hmem⟩)
        · exact Or.inl hm
        · cases hhr
          exact Or.inr ⟨hck, Or.inl rfl⟩
        · exact Or.inr ⟨hck, Or.inr hmem⟩
      · rintro (hm | ⟨hck, rfl | hmem⟩)
        · exact Or.inl (Or.inl hm)
        · exact Or.inl (Or.inr ⟨hck, rfl⟩)
        · exact Or.inr ⟨hck, hmem⟩

theorem tv_process_operation_pre (op : BytecodeOperation) (tg : TaskGraph)
    (mem : Dict MemoryObject) :
    process_operation op tg mem
      = op.objects.foldl
          (fun acc ref => process_ref op (tg.operations.length : Int) ref acc)
          (let tg1 := { tg with operations := tg.operations ++ [op] }
           let tg2 := if op.task_name.isEmpty then tg1
                      else { tg1 with tasks := tg1.tasks ++ [op.task_name] }
           (tg2, mem)) := by
  unfold process_operation
  rfl

theorem tv_process_operation_produced (op : BytecodeOperation) (tg : TaskGraph)
    (mem : Dict MemoryObject) (h : Str) :
    h ∈ (process_operation op tg mem).1.objects_produced
    ↔ h ∈ tg.objects_produced ∨ (producedKind op = true ∧ h ∈ ref_hashes op.objects) := by
  rw [tv_process_operation_pre, tv_fold_refs_produced]
  by_cases ht : op.task_name.isEmpty <;> simp [ht]

theorem tv_process_operation_consumed (op : BytecodeOperation) (tg : TaskGraph)
    (mem : Dict MemoryObject) (h : Str) :
    h ∈ (process_operation op tg mem).1.objects_consumed
    ↔ h ∈ tg.objects_consumed ∨ (consumedKind op = true ∧ h ∈ ref_hashes op.objects) := by
  rw [tv_process_operation_pre, tv_fold_refs_consumed]
  by_cases ht : op.task_name.isEmpty <;> simp [ht]

set_option maxRecDepth 8192 in
/-- Claim C10: per-operation, append-only produced/consumed classification.
Every extractable hash of an operation's references joins the graph's
produced set exactly for ALLOC and TRANSFER_* kinds, and the consumed set
exactly for ON_DEVICE_BUFFER and every other non-ALLOC/TRANSFER/DEALLOC
kind (DEALLOC joins neither); both sets only ever grow; and on `log_c10`
(ALLOC then ON_DEVICE of the same reference) one graph holds `aa11` in both
sets. -/
theorem spec_c10_classification :
    (∀ op tg mem h,
      h ∈ (process_operation op tg mem).1.objects_produced
        ↔ h ∈ tg.objects_produced ∨ (producedKind op = true ∧ h ∈ ref_hashes op.objects))
    ∧ (∀ op tg mem h,
      h ∈ (process_operation op tg mem).1.objects_consumed
        ↔ h ∈ tg.objects_consumed ∨ (consumedKind op = true ∧ h ∈ ref_hashes op.objects))
    ∧ (∀ op tg mem,
        tg.objects_produced ⊆ (process_operation op tg mem).1.objects_produced
        ∧ tg.objects_consumed ⊆ (process_operation op tg mem).1.objects_consumed)
    ∧ ("aa11".toList ∈ ((parse_log log_c10).graphs.headD ([], emptyTG)).2.objects_produced
        ∧ "aa11".toList ∈ ((parse_log log_c10).graphs.headD ([], emptyTG)).2.objects_consumed) := by
  refine ⟨tv_process_operation_produced, tv_process_operation_consumed, ?_, ?_, ?_⟩
  · intro op tg mem
    constructor
    · intro h hm
      exact (tv_process_operation_produced op tg mem h).mpr (Or.inl hm)
    · intro h hm
      exact (tv_process_operation_consumed op tg mem h).mpr (Or.inl hm)
  · decide
  · decide

/-- Witness for C10: the produced-classification equivalence applied at a
concrete TRANSFER operation, graph, and registry. -/
theorem spec_c10_witness :
    "bb22".toList ∈ (process_operation op_transfer_w tg_w []).1.objects_produced
    ↔ "bb22".toList ∈ tg_w.objects_produced
      ∨ (producedKind op_transfer_w = true ∧ "bb22".toList ∈ ref_hashes op_transfer_w.objects) :=
  spec_c10_classification.1 op_transfer_w tg_w [] "bb22".toList

theorem tv_process_ref_graph_id (op : BytecodeOperation) (oi : Int) (ref : Str)
    (st : TaskGraph × Dict MemoryObject) :
    (process_ref op oi ref st).1.graph_id = st.1.graph_id := by
  cases hh : extract_hash ref with
  | none => simp [process_ref, hh]
  | some h0 =>
    simp only [process_ref, hh]
    split_ifs <;> rfl

theorem tv_process_ref_lookup_other (op : BytecodeOperation) (oi : Int) (ref : Str)
    (st : TaskGraph × Dict MemoryObject) (h : Str)
    (hne : extract_hash ref ≠ some h) :
    dlookup (process_ref op oi ref st).2 h = dlookup st.2 h := by
  cases hh : extract_hash ref with
  | none => simp [process_ref, hh]
  | some h0 =>
    have hne0 : h0 ≠ h := by
      intro heq
      exact hne (heq ▸ hh)
    cases hlk : dlookup st.2 h0 with
    | some m0 =>
      simp only [process_ref, hh, hlk]
      split_ifs <;>
        simp [tv_dlookup_dinsert_ne _ _ _ _ hne0]
    | none =>
      simp only [process_ref, hh, hlk]
      split_ifs <;>
        simp [tv_dlookup_dinsert_ne _ _ _ _ hne0,
          tv_dlookup_dinsert_self, Option.getD_some]

theorem tv_process_ref_transfer_self (op : BytecodeOperation) (oi : Int) (ref : Str)
    (st : TaskGraph × Dict MemoryObject) (h : Str)
    (hk : "TRANSFER".toList.isPrefixOf op.operation = true)
    (hh : extract_hash ref = some h) :
    ∃ m', dlookup (process_ref op oi ref st).2 h = some m'
      ∧ m'.current_status = "Transferred".toList
      ∧ m'.transfer_history
          = mem_hist_at st.2 h ++ [(op.operation, st.1.graph_id, oi)]
      ∧ m'.size = (if op.size > 0 then op.size else mem_size_at st.2 h) := by
  have hA : ¬ op.operation = "ALLOC".toList := by
    intro heq
    rw [heq] at hk
    exact absurd hk (by decide)
  cases hlk : dlookup st.2 h with
  | some m0 =>
    simp only [process_ref, hh, hlk]
    rw [if_neg hA, if_pos hk]
    refine ⟨_, tv_dlookup_dinsert_self _ _ _, rfl, ?_, ?_⟩
    · simp [mem_hist_at, hlk]
    · simp [mem_size_at, hlk]
  | none =>
    simp only [process_ref, hh, hlk, tv_dlookup_dinsert_self, Option.getD_some]
    rw [if_neg hA, if_pos hk]
    refine ⟨_, tv_dlookup_dinsert_self _ _ _, rfl, ?_, ?_⟩
    · simp [mem_hist_at, hlk]
    · simp [mem_size_at, hlk]

theorem tv_process_ref_dealloc_self (op : BytecodeOperation) (oi : Int) (ref : Str)
    (st : TaskGraph × Dict MemoryObject) (h : Str)
    (hk : op.operation = "DEALLOC".toList)
    (hh : extract_hash ref = some h) :
    ∃ m', dlookup (process_ref op oi ref st).2 h = some m'
      ∧ m'.deallocation_op_index = oi
      ∧ m'.current_status = (if op.status.isEmpty then "Freed".toList else op.status) := by
  have hA : ¬ op.operation = "ALLOC".toList := by
    intro heq
    rw [hk] at heq
    exact absurd heq (by decide)
  have hT : ¬ ("TRANSFER".toList.isPrefixOf op.operation = true) := by
    rw [hk]
    decide
  cases hlk : dlookup st.2 h with
  | some m0 =>
    simp only [process_ref, hh, hlk]
    rw [if_neg hA, if_neg hT, if_pos hk]
    exact ⟨_, tv_dlookup_dinsert_self _ _ _, rfl, rfl⟩
  | none =>
    simp only [process_ref, hh, hlk, tv_dlookup_dinsert_self, Option.getD_some]
    rw [if_neg hA, if_neg hT, if_pos hk]
    exact ⟨_, tv_dlookup_dinsert_self _ _ _, rfl, rfl⟩

theorem tv_transfer_step (op : BytecodeOperation) (oi : Int) (gid : Str)
    (mem0 : Dict MemoryObject) (h : Str)
    (hk : "TRANSFER".toList.isPrefixOf op.operation = true)
    (ref' : Str) (st : TaskGraph × Dict MemoryObject)
    (hgid : st.1.graph_id = gid)
    (hq : (∃ m', dlookup st.2 h = some m'
            ∧ m'.current_status = "Transferred".toList
            ∧ (op.operation, gid, oi) ∈ m'.transfer_history
            ∧ mem_hist_at mem0 h <+: m'.transfer_history
            ∧ m'.size = (if op.size > 0 then op.size else mem_size_at mem0 h))
          ∨ dlookup st.2 h = dlookup mem0 h) :
    ((process_ref op oi ref' st).1.graph_id = gid)
    ∧ ((∃ m', dlookup (process_ref op oi ref' st).2 h = some m'
            ∧ m'.current_status = "Transferred".toList
            ∧ (op.operation, gid, oi) ∈ m'.transfer_history
            ∧ mem_hist_at mem0 h <+: m'.transfer_history
            ∧ m'.size = (if op.size > 0 then op.size else mem_size_at mem0 h))
          ∨ dlookup (process_ref op oi ref' st).2 h = dlookup mem0 h)
    ∧ (extract_hash ref' = some h →
        ∃ m', dlookup (process_ref op oi ref' st).2 h = some m'
          ∧ m'.current_status = "Transferred".toList
          ∧ (op.operation, gid, oi) ∈ m'.transfer_history
          ∧ mem_hist_at mem0 h <+: m'.transfer_history
          ∧ m'.size = (if op.size > 0 then op.size else mem_size_at mem0 h)) := by
  refine ⟨by rw [tv_process_ref_graph_id, hgid], ?_, ?_⟩
  · by_cases hh : extract_hash ref' = some h
    · obtain ⟨m', hm', hst, hhist, hsz⟩ := tv_process_ref_transfer_self op oi ref' st h hk hh
      left
      refine ⟨m', hm', hst, ?_, ?_, ?_⟩
      · rw [hhist, hgid]
        simp
      · rcases hq with ⟨m0, hm0, _, _, hpre, _⟩ | hsame
        · rw [hhist]
          have : mem_hist_at st.2 h = m0.transfer_history := by
            simp [mem_hist_at, hm0]
          rw [this]
          exact hpre.trans (List.prefix_append _ _)
        · rw [hhist]
          have : mem_hist_at st.2 h = mem_hist_at mem0 h := by
            simp [mem_hist_at, hsame]
          rw [this]
          exact List.prefix_append _ _
      · rw [hsz]
        by_cases hpos : op.size > 0
        · simp [hpos]
        · simp only [if_neg hpos]
          rcases hq with ⟨m0, hm0, _, _, _, hsz0⟩ | hsame
          · have : mem_size_at st.2 h = m0.size := by
              simp [mem_size_at, hm0]
            rw [this, hsz0, if_neg hpos]
          · simp [mem_size_at, hsame]
    · rw [tv_process_ref_lookup_other op oi ref' st h hh]
      exact hq
  · intro hh
    obtain ⟨m', hm', hst, hhist, hsz⟩ := tv_process_ref_transfer_self op oi ref' st h hk hh
    refine ⟨m', hm', hst, ?_, ?_, ?_⟩
    · rw [hhist, hgid]
      simp
    · rcases hq with ⟨m0, hm0, _, _, hpre, _⟩ | hsame
      · rw [hhist]
        have : mem_hist_at st.2 h = m0.transfer_history := by
          simp [mem_hist_at, hm0]
        rw [this]
        exact hpre.trans (List.prefix_append _ _)
      · rw [hhist]
        have : mem_hist_at st.2 h = mem_hist_at mem0 h := by
          simp [mem_hist_at, hsame]
        rw [this]
        exact List.prefix_append _ _
    · rw [hsz]
      by_cases hpos : op.size > 0
      · simp [hpos]
      · simp only [if_neg hpos]
        rcases hq with ⟨m0, hm0, _, _, _, hsz0⟩ | hsame
        · have : mem_size_at st.2 h = m0.size := by
            simp [mem_size_at, hm0]
          rw [this, hsz0, if_neg hpos]
        · simp [mem_size_at, hsame]

theorem tv_transfer_step_pres (op : BytecodeOperation) (oi : Int) (gid : Str)
    (mem0 : Dict MemoryObject) (h : Str)
    (hk : "TRANSFER".toList.isPrefixOf op.operation = true)
    (ref' : Str) (st : TaskGraph × Dict MemoryObject)
    (hgid : st.1.graph_id = gid)
    (hp : ∃ m', dlookup st.2 h = some m'
            ∧ m'.current_status = "Transferred".toList
            ∧ (op.operation, gid, oi) ∈ m'.transfer_history
            ∧ mem_hist_at mem0 h <+: m'.transfer_history
            ∧ m'.size = (if op.size > 0 then op.size else mem_size_at mem0 h)) :
    ∃ m', dlookup (process_ref op oi ref' st).2 h = some m'
      ∧ m'.current_status = "Transferred".toList
      ∧ (op.operation, gid, oi) ∈ m'.transfer_history
      ∧ mem_hist_at mem0 h <+: m'.transfer_history
      ∧ m'.size = (if op.size > 0 then op.size else mem_size_at mem0 h) := by
  by_cases hh : extract_hash ref' = some h
  · exact (tv_transfer_step op oi gid mem0 h hk ref' st hgid (Or.inl hp)).2.2 hh
  · rw [tv_process_ref_lookup_other op oi ref' st h hh]
    exact hp

theorem tv_fold_transfer_presP (op : BytecodeOperation) (oi : Int) (gid : Str)
    (mem0 : Dict MemoryObject) (h : Str)
    (hk : "TRANSFER".toList.isPrefixOf op.operation = true) :
    ∀ (objs : List Str) (st : TaskGraph × Dict MemoryObject),
      st.1.graph_id = gid →
      (∃ m', dlookup st.2 h = some m'
          ∧ m'.current_status = "Transferred".toList
          ∧ (op.operation, gid, oi) ∈ m'.transfer_history
          ∧ mem_hist_at mem0 h <+: m'.transfer_history
          ∧ m'.size = (if op.size > 0 then op.size else mem_size_at mem0 h)) →
      ∃ m', dlookup ((objs.foldl (fun acc ref => process_ref op oi ref acc) st)).2 h = some m'
        ∧ m'.current_status = "Transferred".toList
        ∧ (op.operation, gid, oi) ∈ m'.transfer_history
        ∧ mem_hist_at mem0 h <+: m'.transfer_history
        ∧ m'.size = (if op.size > 0 then op.size else mem_size_at mem0 h) := by
  intro objs
  induction objs with
  | nil => intro st _ hp; exact hp
  | cons r rs ih =>
    intro st hgid hp
    rw [List.foldl_cons]
    exact ih _ (by rw [tv_process_ref_graph_id, hgid])
      (tv_transfer_step_pres op oi gid mem0 h hk r st hgid hp)

theorem tv_fold_transfer (op : BytecodeOperation) (oi : Int) (gid : Str)
    (mem0 : Dict MemoryObject) (h : Str)
    (hk : "TRANSFER".toList.isPrefixOf op.operation = true) :
    ∀ (objs : List Str) (st : TaskGraph × Dict MemoryObject),
      st.1.graph_id = gid →
      ((∃ m', dlookup st.2 h = some m'
            ∧ m'.current_status = "Transferred".toList
            ∧ (op.operation, gid, oi) ∈ m'.transfer_history
            ∧ mem_hist_at mem0 h <+: m'.transfer_history
            ∧ m'.size = (if op.size > 0 then op.size else mem_size_at mem0 h))
        ∨ dlookup st.2 h = dlookup mem0 h) →
      (∃ r ∈ objs, extract_hash r = some h) →
      ∃ m', dlookup ((objs.foldl (fun acc ref => process_ref op oi ref acc) st)).2 h = some m'
        ∧ m'.current_status = "Transferred".toList
        ∧ (op.operation, gid, oi) ∈ m'.transfer_history
        ∧ mem_hist_at mem0 h <+: m'.transfer_history
        ∧ m'.size = (if op.size > 0 then op.size else mem_size_at mem0 h) := by
  intro objs
  induction objs with
  | nil =>
    intro st _ _ hex
    simp at hex
  | cons r rs ih =>
    intro st hgid hq hex
    rw [List.foldl_cons]
    obtain ⟨hgid', hq', hest⟩ := tv_transfer_step op oi gid mem0 h hk r st hgid hq
    rcases hex with ⟨r', hr', hh'⟩
    rcases List.mem_cons.mp hr' with rfl | hr'
    · exact tv_fold_transfer_presP op oi gid mem0 h hk rs _ hgid' (hest hh')
    · exact ih _ hgid' hq' ⟨r', hr', hh'⟩

/-- Claim C4: processing an operation whose kind starts with TRANSFER adds
every extractable hash of its references to the graph's produced set,
appends the `(kind, graph id, operation index)` triple to that object's
transfer history (the prior history stays a prefix), sets its status to
`Transferred`, and sets its size to the operation's size when that is
positive, leaving the previously recorded size otherwise. -/
theorem spec_c4_transfer_processing :
    ∀ (op : BytecodeOperation) (tg : TaskGraph) (mem : Dict MemoryObject) (ref h : Str),
      "TRANSFER".toList.isPrefixOf op.operation = true →
      ref ∈ op.objects → extract_hash ref = some h →
      h ∈ (process_operation op tg mem).1.objects_produced
      ∧ ∃ m', dlookup (process_operation op tg mem).2 h = some m'
          ∧ m'.current_status = "Transferred".toList
          ∧ (op.operation, tg.graph_id, (tg.operations.length : Int)) ∈ m'.transfer_history
          ∧ mem_hist_at mem h <+: m'.transfer_history
          ∧ m'.size = (if op.size > 0 then op.size else mem_size_at mem h) := by
  intro op tg mem ref h hk href hh
  constructor
  · apply (tv_process_operation_produced op tg mem h).mpr
    refine Or.inr ⟨?_, ?_⟩
    · unfold producedKind
      rw [hk, Bool.or_true]
    · exact List.mem_filterMap.mpr ⟨ref, href, hh⟩
  · rw [tv_process_operation_pre]
    refine tv_fold_transfer op (tg.operations.length : Int) tg.graph_id mem h hk
      op.objects _ ?_ (Or.inr rfl) ⟨ref, href, hh⟩
    by_cases ht : op.task_name.isEmpty <;> simp [ht]

/-- Witness for C4 at a concrete TRANSFER operation on a fresh registry. -/
theorem spec_c4_witness :
    "bb22".toList ∈ (process_operation op_transfer_w tg_w []).1.objects_produced
    ∧ ∃ m', dlookup (process_operation op_transfer_w tg_w []).2 "bb22".toList = some m'
        ∧ m'.current_status = "Transferred".toList
        ∧ (op_transfer_w.operation, tg_w.graph_id, (tg_w.operations.length : Int))
            ∈ m'.transfer_history
        ∧ mem_hist_at [] "bb22".toList <+: m'.transfer_history
        ∧ m'.size = (if op_transfer_w.size > 0 then op_transfer_w.size
                     else mem_size_at [] "bb22".toList) :=
  spec_c4_transfer_processing op_transfer_w tg_w [] "bar.FloatArray@bb22".toList
    "bb22".toList (by decide) (by decide) (by decide)

theorem tv_dealloc_presP (op : BytecodeOperation) (oi : Int) (h : Str)
    (hk : op.operation = "DEALLOC".toList) (ref' : Str)
    (st : TaskGraph × Dict MemoryObject)
    (hp : ∃ m', dlookup st.2 h = some m'
            ∧ m'.deallocation_op_index = oi
            ∧ m'.current_status = (if op.status.isEmpty then "Freed".toList else op.status)) :
    ∃ m', dlookup (process_ref op oi ref' st).2 h = some m'
      ∧ m'.deallocation_op_index = oi
      ∧ m'.current_status = (if op.status.isEmpty then "Freed".toList else op.status) := by
  by_cases hh : extract_hash ref' = some h
  · exact tv_process_ref_dealloc_self op oi ref' st h hk hh
  · rw [tv_process_ref_lookup_other op oi ref' st h hh]
    exact hp

theorem tv_fold_dealloc_presP (op : BytecodeOperation) (oi : Int) (h : Str)
    (hk : op.operation = "DEALLOC".toList) :
    ∀ (objs : List Str) (st : TaskGraph × Dict MemoryObject),
      (∃ m', dlookup st.2 h = some m'
          ∧ m'.deallocation_op_index = oi
          ∧ m'.current_status = (if op.status.isEmpty then "Freed".toList else op.status)) →
      ∃ m', dlookup ((objs.foldl (fun acc ref => process_ref op oi ref acc) st)).2 h = some m'
        ∧ m'.deallocation_op_index = oi
        ∧ m'.current_status = (if op.status.isEmpty then "Freed".toList else op.status) := by
  intro objs
  induction objs with
  | nil => intro st hp; exact hp
  | cons r rs ih =>
    intro st hp
    rw [List.foldl_cons]
    exact ih _ (tv_dealloc_presP op oi h hk r st hp)

theorem tv_fold_dealloc (op : BytecodeOperation) (oi : Int) (h : Str)
    (hk : op.operation = "DEALLOC".toList) :
    ∀ (objs : List Str) (st : TaskGraph × Dict MemoryObject),
      (∃ r ∈ objs, extract_hash r = some h) →
      ∃ m', dlookup ((objs.foldl (fun acc ref => process_ref op oi ref acc) st)).2 h = some m'
        ∧ m'.deallocation_op_index = oi
        ∧ m'.current_status = (if op.status.isEmpty then "Freed".toList else op.status) := by
  intro objs
  induction objs with
  | nil =>
    intro st hex
    simp at hex
  | cons r rs ih =>
    intro st hex
    rw [List.foldl_cons]
    rcases hex with ⟨r', hr', hh'⟩
    rcases List.mem_cons.mp hr' with rfl | hr'
    · exact tv_fold_dealloc_presP op oi h hk rs _
        (tv_process_ref_dealloc_self op oi r' st h hk hh')
    · exact ih _ ⟨r', hr', hh'⟩

/-- Claim C5: processing a DEALLOC sets the object's deallocation operation
index to the operation's index in the graph, and its status to the decoded
bracketed status text when non-empty, to `Freed` otherwise; the concrete
`Persisted object` line yields exactly that status, not `Freed`. -/
theorem spec_c5_dealloc_status :
    (∀ (op : BytecodeOperation) (tg : TaskGraph) (mem : Dict MemoryObject) (ref h : Str),
      op.operation = "DEALLOC".toList → ref ∈ op.objects → extract_hash ref = some h →
      ∃ m', dlookup (process_operation op tg mem).2 h = some m'
        ∧ m'.deallocation_op_index = (tg.operations.length : Int)
        ∧ m'.current_status = (if op.status.isEmpty then "Freed".toList else op.status))
    ∧ (parse_log log_c5).memory_objects.map (fun p => (p.1, p.2.current_status))
        = [("aa11".toList, "Persisted object".toList)]
    ∧ "Persisted object".toList ≠ "Freed".toList := by
  refine ⟨?_, by decide, by decide⟩
  intro op tg mem ref h hk href hh
  rw [tv_process_operation_pre]
  exact tv_fold_dealloc op (tg.operations.length : Int) h hk op.objects _ ⟨ref, href, hh⟩

/-- Witness for C5 at a concrete DEALLOC operation. -/
theorem spec_c5_witness :
    ∃ m', dlookup (process_operation op_dealloc_w tg_w []).2 "aa11".toList = some m'
      ∧ m'.deallocation_op_index = (tg_w.operations.length : Int)
      ∧ m'.current_status
          = (if op_dealloc_w.status.isEmpty then "Freed".toList else op_dealloc_w.status) :=
  spec_c5_dealloc_status.1 op_dealloc_w tg_w [] "foo.IntArray@aa11".toList "aa11".toList
    (by decide) (by decide) (by decide)

theorem tv_extract_hash_after_at :
    ∀ (t : Str) (c : Char) (u : Str), '@' ∉ t → isWordChar c = true →
      extract_hash (t ++ '@' :: c :: u) = some ((c :: u).takeWhile isWordChar) := by
  intro t
  induction t with
  | nil =>
    intro c u _ hc
    have hw : ((c :: u).takeWhile isWordChar).isEmpty = false := by
      rw [List.takeWhile_cons, if_pos hc]
      rfl
    unfold extract_hash
    show scanO hashAt ('@' :: c :: u) = _
    have hat : hashAt ('@' :: c :: u) = some ((c :: u).takeWhile isWordChar) := by
      simp only [hashAt]
      simp [hw]
    simp [scanO, hat, Option.orElse]
  | cons d t ih =>
    intro c u hat hc
    have hd : ¬ d = '@' := by
      intro heq
      exact hat (by simp [heq])
    have hdd : hashAt (d :: (t ++ '@' :: c :: u)) = none := by
      simp only [hashAt]
      rw [if_neg hd]
    unfold extract_hash at ih ⊢
    show scanO hashAt (d :: (t ++ '@' :: c :: u)) = _
    rw [scanO, hdd]
    exact ih c u (fun hm => hat (by simp [hm])) hc

theorem tv_takeWhile_until_at :
    ∀ (t u : Str), '@' ∉ t →
      (t ++ '@' :: u).takeWhile (fun c => !(c == '@')) = t := by
  intro t
  induction t with
  | nil =>
    intro u _
    simp [List.takeWhile_cons]
  | cons d t ih =>
    intro u hat
    have hd : ¬ d = '@' := by
      intro heq
      exact hat (by simp [heq])
    rw [List.cons_append, List.takeWhile_cons, if_pos (by simpa using hd), ih u (fun hm => hat (by simp [hm]))]

/-- Claim C6: on `pkg.Type@abc123` hash extraction yields `abc123` and type
extraction yields `Type`; in general, for a reference `path@rest` whose
path contains no `@` and whose hash part starts with a word character, the
hash is the maximal word-character run after the `@`, and for a reference
without a colon the type is computed from the dotted path before the `@` by
the end-to-front component scan, falling back to the last component. -/
theorem spec_c6_reference_decoding :
    (extract_hash "pkg.Type@abc123".toList = some "abc123".toList
      ∧ extract_type "pkg.Type@abc123".toList = "Type".toList)
    ∧ (∀ (t : Str) (c : Char) (u : Str), '@' ∉ t → isWordChar c = true →
        extract_hash (t ++ '@' :: c :: u) = some ((c :: u).takeWhile isWordChar))
    ∧ (∀ (t u : Str), ':' ∉ t ++ '@' :: u → '@' ∉ t →
        extract_type (t ++ '@' :: u)
          = (match componentPick (splitOnC '.' t).reverse with
             | some c => c
             | none =>
               match (splitOnC '.' t).getLast? with
               | some c => c
               | none => "Unknown".toList)) := by
  refine ⟨⟨by decide, by decide⟩, tv_extract_hash_after_at, ?_⟩
  intro t u hcolon hat
  have hc : (t ++ '@' :: u).contains ':' = false := by
    simpa using hcolon
  have ha : (t ++ '@' :: u).contains '@' = true := by
    simp
  unfold extract_type
  rw [if_neg (by rw [hc]; exact Bool.false_ne_true), if_pos ha,
    tv_takeWhile_until_at t u hat]

/-- Witness for C6's general clauses at `pkg.Type` / `abc123`. -/
theorem spec_c6_witness :
    extract_hash ("pkg.Type".toList ++ '@' :: 'a' :: "bc123".toList)
        = some (('a' :: "bc123".toList).takeWhile isWordChar)
    ∧ extract_type ("pkg.Type".toList ++ '@' :: "abc123".toList)
        = (match componentPick (splitOnC '.' "pkg.Type".toList).reverse with
           | some c => c
           | none =>
             match (splitOnC '.' "pkg.Type".toList).getLast? with
             | some c => c
             | none => "Unknown".toList) :=
  ⟨spec_c6_reference_decoding.2.1 "pkg.Type".toList 'a' "bc123".toList
      (by decide) (by decide),
   spec_c6_reference_decoding.2.2 "pkg.Type".toList "abc123".toList
      (by decide) (by decide)⟩

theorem tv_dropWhile_no_ws (l : Str) (h : ∀ c ∈ l, isWs c = false) :
    l.dropWhile isWs = l := by
  cases l with
  | nil => rfl
  | cons c t =>
    have := h c (by simp)
    simp [List.dropWhile_cons, this]

theorem tv_pstrip_no_ws (s : Str) (h : ∀ c ∈ s, isWs c = false) : pstrip s = s := by
  unfold pstrip
  rw [tv_dropWhile_no_ws s h, tv_dropWhile_no_ws s.reverse
    (fun c hc => h c (List.mem_reverse.mp hc)), List.reverse_reverse]

theorem tv_not_ws_of_digit (c : Char) (hd : c.isDigit = true) : isWs c = false := by
  cases hw : isWs c with
  | false => rfl
  | true =>
    exfalso
    unfold isWs at hw
    simp only [Bool.or_eq_true, beq_iff_eq] at hw
    rcases hw with ((((rfl | rfl) | rfl) | rfl) | rfl) | rfl <;> exact absurd hd (by decide)

theorem tv_pyIntE_digits (d : Str) (hne : d ≠ []) (hd : ∀ c ∈ d, c.isDigit = true) :
    ∃ v, pyIntE d = Except.ok v := by
  cases d with
  | nil => exact absurd rfl hne
  | cons c r =>
    have hps : pstrip (c :: r) = c :: r :=
      tv_pstrip_no_ws _ (fun x hx => tv_not_ws_of_digit x (hd x hx))
    have hcd : c.isDigit = true := hd c (by simp)
    have hcm : ¬ c = '-' := by
      intro heq
      rw [heq] at hcd
      exact absurd hcd (by decide)
    have hcp : ¬ c = '+' := by
      intro heq
      rw [heq] at hcd
      exact absurd hcd (by decide)
    refine ⟨(1 : Int) * (natVal (c :: r) : Int), ?_⟩
    simp only [pyIntE, hps]
    rw [if_neg hcm, if_neg hcp]
    simp [List.all_eq_true.mpr hd]

theorem tv_pyIntE_signed (d : Str) (hne : d ≠ []) (hd : ∀ c ∈ d, c.isDigit = true) :
    ∃ v, pyIntE ('-' :: d) = Except.ok v := by
  have hps : pstrip ('-' :: d) = '-' :: d := by
    apply tv_pstrip_no_ws
    intro x hx
    rcases List.mem_cons.mp hx with rfl | hx
    · decide
    · exact tv_not_ws_of_digit x (hd x hx)
  refine ⟨(-1 : Int) * (natVal d : Int), ?_⟩
  simp only [pyIntE, hps, if_true]
  cases d with
  | nil => exact absurd rfl hne
  | cons c r => simp [List.all_eq_true.mpr hd]

theorem tv_pyIntE_agree (s : Str) (h : ∃ v, pyIntE s = Except.ok v) :
    pyIntE s = Except.ok (pyIntD s) := by
  obtain ⟨v, hv⟩ := h
  rw [hv]
  unfold pyIntD
  rw [hv]

theorem tv_digitRun1_some (x d y : Str) (h : digitRun1 x = some (d, y)) :
    d ≠ [] ∧ ∀ c ∈ d, c.isDigit = true := by
  unfold digitRun1 at h
  by_cases he : (x.takeWhile Char.isDigit).isEmpty = true
  · rw [if_pos he] at h
    cases h
  · rw [if_neg he] at h
    cases h
    exact ⟨fun hn => he (by rw [hn]; rfl), fun c hc => List.mem_takeWhile_imp hc⟩

theorem tv_digitRun1_ok (x d y : Str) (h : digitRun1 x = some (d, y)) :
    ∃ v, pyIntE d = Except.ok v := by
  obtain ⟨hne, hd⟩ := tv_digitRun1_some x d y h
  exact tv_pyIntE_digits d hne hd

theorem tv_sizeBatchTail_digits (s d1 d2 : Str) (h : sizeBatchTail s = some (d1, d2)) :
    (∃ v, pyIntE d1 = Except.ok v) ∧ (∃ v, pyIntE d2 = Except.ok v) := by
  unfold sizeBatchTail at h
  by_cases hon : " on".toList.isPrefixOf s = true
  · rw [if_pos hon] at h
    obtain ⟨k, -, -, hk⟩ := tv_descend_some _ _ _ h
    dsimp only at hk
    obtain ⟨m, -, hm⟩ := tv_ascend_some _ _ _ _ hk
    split at hm
    · split at hm
      · simp at hm
      · rename_i d1' y heq1
        split at hm
        · split at hm
          · simp at hm
          · rename_i d2' y2 heq2
            simp only [Option.some.injEq, Prod.mk.injEq] at hm
            obtain ⟨rfl, rfl⟩ := hm
            exact ⟨tv_digitRun1_ok _ _ _ heq1, tv_digitRun1_ok _ _ _ heq2⟩
        · simp at hm
    · simp at hm
  · rw [if_neg hon] at h
    simp at h

theorem tv_allocMatch_digits (d ref d1 d2 : Str) (h : allocMatch d = some (ref, d1, d2)) :
    (∃ v, pyIntE d1 = Except.ok v) ∧ (∃ v, pyIntE d2 = Except.ok v) := by
  obtain ⟨t, -, ht⟩ := tv_scanO_some _ _ _ h
  unfold allocAt at ht
  split at ht
  · simp at ht
  · rename_i ref0 rest heq
    rw [Option.map_eq_some'] at ht
    obtain ⟨p, hp, hpe⟩ := ht
    obtain ⟨p1, p2⟩ := p
    simp only [Prod.mk.injEq] at hpe
    obtain ⟨-, rfl, rfl⟩ := hpe
    exact tv_sizeBatchTail_digits rest p1 p2 hp

theorem tv_transferMatch_digits (d ref d1 d2 : Str)
    (h : transferMatch d = some (ref, d1, d2)) :
    (∃ v, pyIntE d1 = Except.ok v) ∧ (∃ v, pyIntE d2 = Except.ok v) := by
  obtain ⟨t, -, ht⟩ := tv_scanO_some _ _ _ h
  unfold transferAt at ht
  split at ht
  · simp at ht
  · rename_i r heq
    split at ht
    · rename_i r2 heq2
      split at ht
      · simp at ht
      · rename_i ref0 rest heq3
        rw [Option.map_eq_some'] at ht
        obtain ⟨p, hp, hpe⟩ := ht
        obtain ⟨p1, p2⟩ := p
        simp only [Prod.mk.injEq] at hpe
        obtain ⟨-, rfl, rfl⟩ := hpe
        exact tv_sizeBatchTail_digits rest p1 p2 hp
    · simp at ht

theorem tv_eventSigned_ok (d g : Str) (h : eventMatchSigned d = some g) :
    ∃ v, pyIntE g = Except.ok v := by
  obtain ⟨t, -, ht⟩ := tv_scanO_some _ _ _ h
  unfold eventAtSigned at ht
  by_cases hp : "[event list=".toList.isPrefixOf t = true
  · rw [if_pos hp] at ht
    split at ht
    · split at ht
      · rename_i dg rest heq
        simp only [Option.some.injEq] at ht
        subst ht
        obtain ⟨hne, hdg⟩ := tv_digitRun1_some _ dg _ heq
        exact tv_pyIntE_signed dg hne hdg
      · simp at ht
    · split at ht
      · rename_i dg rest heq
        simp only [Option.some.injEq] at ht
        subst ht
        exact tv_digitRun1_ok _ dg _ heq
      · simp at ht
  · rw [if_neg hp] at ht
    simp at ht

theorem tv_eventUnsigned_ok (d g : Str) (h : eventMatchUnsigned d = some g) :
    ∃ v, pyIntE g = Except.ok v := by
  obtain ⟨t, -, ht⟩ := tv_scanO_some _ _ _ h
  unfold eventAtUnsigned at ht
  by_cases hp : "[event list=".toList.isPrefixOf t = true
  · rw [if_pos hp] at ht
    split at ht
    · rename_i dg rest heq
      simp only [Option.some.injEq] at ht
      subst ht
      exact tv_digitRun1_ok _ dg _ heq
    · simp at ht
  · rw [if_neg hp] at ht
    simp at ht

theorem tv_barrierMatch_ok (d g : Str) (h : barrierMatch d = some g) :
    ∃ v, pyIntE g = Except.ok v := by
  obtain ⟨t, -, ht⟩ := tv_scanO_some _ _ _ h
  unfold barrierAt at ht
  by_cases hp : "event-list ".toList.isPrefixOf t = true
  · rw [if_pos hp] at ht
    rw [Option.map_eq_some'] at ht
    obtain ⟨p, hp2, hpe⟩ := ht
    obtain ⟨p1, p2⟩ := p
    cases hpe
    exact tv_digitRun1_ok _ p1 _ hp2
  · rw [if_neg hp] at ht
    simp at ht

theorem tv_decodeE_agree (t d full : Str) :
    decode_operationE t d full = Except.ok (decode_operation t d full) := by
  unfold decode_operationE decode_operation
  by_cases h1 : t = "ALLOC".toList
  · rw [if_pos h1, if_pos h1]
    cases ha : allocMatch d with
    | none => simp only [ha]; rfl
    | some tr =>
      obtain ⟨ref, d1, d2⟩ := tr
      obtain ⟨hv1, hv2⟩ := tv_allocMatch_digits d ref d1 d2 ha
      simp only [ha]
      rw [tv_pyIntE_agree d1 hv1, tv_pyIntE_agree d2 hv2]
      rfl
  · rw [if_neg h1, if_neg h1]
    by_cases h2 : "TRANSFER".toList.isPrefixOf t = true
    · rw [if_pos h2, if_pos h2]
      cases ha : transferMatch d with
      | none => simp only [ha]; rfl
      | some tr =>
        obtain ⟨ref, d1, d2⟩ := tr
        obtain ⟨hv1, hv2⟩ := tv_transferMatch_digits d ref d1 d2 ha
        simp only [ha]
        rw [tv_pyIntE_agree d1 hv1, tv_pyIntE_agree d2 hv2]
        cases hev : eventMatchSigned d with
        | none => simp only [hev]; rfl
        | some g =>
          simp only [hev]
          rw [tv_pyIntE_agree g (tv_eventSigned_ok d g hev)]
          rfl
    · rw [if_neg h2, if_neg h2]
      by_cases h3 : t = "LAUNCH".toList
      · rw [if_pos h3, if_pos h3]
        cases hl : launchMatch d with
        | none => simp only [hl]; rfl
        | some nm =>
          simp only [hl]
          cases hev : eventMatchUnsigned d with
          | none => simp only [hev]; rfl
          | some g =>
            simp only [hev]
            rw [tv_pyIntE_agree g (tv_eventUnsigned_ok d g hev)]
            rfl
      · rw [if_neg h3, if_neg h3]
        by_cases h4 : t = "DEALLOC".toList
        · rw [if_pos h4, if_pos h4]
          cases hdm : deallocMatch d with
          | none => simp only [hdm]; rfl
          | some pr =>
            obtain ⟨ref, stt⟩ := pr
            simp only [hdm]
            rfl
        · rw [if_neg h4, if_neg h4]
          by_cases h5 : t = "ON_DEVICE_BUFFER".toList ∨ t = "ON_DEVICE".toList
          · rw [if_pos h5, if_pos h5]
            cases hod : onDeviceMatch d with
            | none => simp only [hod]; rfl
            | some ref => simp only [hod]; rfl
          · rw [if_neg h5, if_neg h5]
            by_cases h6 : t = "BARRIER".toList
            · rw [if_pos h6, if_pos h6]
              cases hb : barrierMatch d with
              | none => simp only [hb]; rfl
              | some g =>
                simp only [hb]
                rw [tv_pyIntE_agree g (tv_barrierMatch_ok d g hb)]
                rfl
            · rw [if_neg h6, if_neg h6]
              rfl

theorem tv_parse_operationE_agree (line : Str) :
    parse_operationE line = Except.ok (parse_operation line) := by
  unfold parse_operationE parse_operation
  cases hsp : splitNone1 (pstrip (removeBC line)) with
  | nil => simp only [hsp]
  | cons a rest =>
    cases rest with
    | nil =>
      simp only [hsp]
      rw [tv_decodeE_agree]
      rfl
    | cons b rest2 =>
      simp only [hsp]
      rw [tv_decodeE_agree]
      rfl

theorem tv_process_lineE_agree (gid : Str) (acc : LineAcc) (line : Str) :
    process_lineE gid acc line = Except.ok (process_line gid acc line) := by
  unfold process_lineE process_line
  by_cases hb : "bc:".toList.isPrefixOf (pstrip line) = true
  · rw [if_pos hb, if_pos hb]
    rw [tv_parse_operationE_agree]
    cases hop : parse_operation line with
    | none => simp only [hop]; rfl
    | some op => simp only [hop]; rfl
  · rw [if_neg hb, if_neg hb]
    rfl

theorem tv_foldLinesE_agree (gid : Str) :
    ∀ (lines : List Str) (acc : LineAcc),
      foldLinesE gid lines acc = Except.ok (lines.foldl (process_line gid) acc) := by
  intro lines
  induction lines with
  | nil => intro acc; rfl
  | cons l rest ih =>
    intro acc
    unfold foldLinesE
    rw [tv_process_lineE_agree]
    have hred : ((Except.ok (process_line gid acc l) : Except Str LineAcc)
        >>= fun a => foldLinesE gid rest a) = foldLinesE gid rest (process_line gid acc l) := rfl
    rw [hred, ih, List.foldl_cons]

theorem tv_ptgE_agree (sec gid : Str) (st : ParserState) :
    parse_task_graphE sec gid st = Except.ok (parse_task_graph sec gid st) := by
  unfold parse_task_graphE parse_task_graph
  cases hm : headerMatch sec with
  | none => simp only [hm]; rfl
  | some pr =>
    obtain ⟨dv, th⟩ := pr
    simp only [hm]
    rw [tv_foldLinesE_agree]
    rfl

theorem tv_parse_sectionsE_agree :
    ∀ (secs : List Str) (gid : Nat) (st : ParserState),
      parse_sectionsE secs gid st = Except.ok (parse_sections secs gid st) := by
  intro secs
  induction secs with
  | nil => intro gid st; rfl
  | cons s rest ih =>
    intro gid st
    unfold parse_sectionsE parse_sections
    by_cases hb : (pstrip s).isEmpty = true
    · rw [if_pos hb, if_pos hb]
      exact ih gid st
    · rw [if_neg hb, if_neg hb]
      rw [tv_ptgE_agree]
      have hred : ((Except.ok (parse_task_graph s (graph_key gid) st) : Except Str ParserState)
          >>= fun st' => parse_sectionsE rest (gid + 1) st')
          = parse_sectionsE rest (gid + 1) (parse_task_graph s (graph_key gid) st) := rfl
      rw [hred, ih]

theorem tv_parse_logE_agree (log : Str) : parse_logE log = Except.ok (parse_log log) := by
  unfold parse_logE parse_log parse_log_from
  rw [tv_parse_sectionsE_agree]
  rfl

/-- Claim C7: parsing is total and never raises.  The fallible model of
`parse_log` (where Python's `int()` may fail) returns `Except.ok` of the
pure parse on every input — every `int()` call receives a string the digit
patterns guarantee to convert — and when an operation's pattern does not
match, the decoded operation keeps its type defaults (size 0, batch size 0,
event list -1). -/
theorem spec_c7_total_no_raise :
    (∀ line, parse_operationE line = Except.ok (parse_operation line))
    ∧ (∀ log, parse_logE log = Except.ok (parse_log log))
    ∧ (∀ t d full, t = "ALLOC".toList → allocMatch d = none →
        decode_operation t d full = { operation := t })
    ∧ (∀ t d full, "TRANSFER".toList.isPrefixOf t = true → transferMatch d = none →
        decode_operation t d full = { operation := t }) := by
  refine ⟨tv_parse_operationE_agree, tv_parse_logE_agree, ?_, ?_⟩
  · intro t d full h1 ha
    simp only [decode_operation, if_pos h1, ha]
  · intro t d full h2 ha
    have h1 : ¬ t = "ALLOC".toList := by
      intro heq
      rw [heq] at h2
      exact absurd h2 (by decide)
    simp only [decode_operation, if_neg h1, if_pos h2, ha]

/-- Witness for C7's default clauses at concrete unmatchable details. -/
theorem spec_c7_witness :
    decode_operation "ALLOC".toList "garbage".toList "ALLOC garbage".toList
        = { operation := "ALLOC".toList }
    ∧ decode_operation "TRANSFER_HOST_TO_DEVICE".toList "oops".toList
        "TRANSFER_HOST_TO_DEVICE oops".toList
        = { operation := "TRANSFER_HOST_TO_DEVICE".toList } :=
  ⟨spec_c7_total_no_raise.2.2.1 _ _ _ rfl (by decide),
   spec_c7_total_no_raise.2.2.2 _ _ _ (by decide) (by decide)⟩
